import Mathlib

/-!
# Verification of the Miyori cognitive memory subsystem

A shallow embedding, in Lean 4, of the memory subsystem of the Miyori
repository (`src/memory/*.py`, `src/interfaces/memory.py`), together with
theorems settling the specification claims about it.

Modelling conventions
* Python floats are modelled as exact rationals (`ℚ`) wherever the code only
  adds, multiplies and divides, and as reals (`ℝ`) where `math.exp`,
  `math.log` or `sqrt` enter (importance decay, cosine similarity).
* ISO-8601 timestamp strings are modelled as integer epoch seconds (`ℤ`);
  `datetime.fromisoformat` never fails in the model and
  `(now - t).days` becomes integer floor division by 86400 (Lean's `Int`
  division `/` is `Int.ediv`, which is floor division for a positive divisor,
  matching Python's `timedelta.days`).
* `datetime.now()` is passed explicitly as a `now : ℤ` argument.
* Python's stable `list.sort(key=k, reverse=True)` is modelled as
  `List.mergeSort` with the boolean relation `fun a b => k b ≤ k a`;
  both are stable descending sorts.
* The external embedder and generator are modelled as explicit function
  parameters; generator calls that can raise are `Except Unit String`.
* SQLite tables are lists of records; the uuid primary keys generated on
  insert are opaque and irrelevant to every claim, so inserted rows carry no
  generated id in the model.
-/

/-! ## Python string helpers -/

/-- The whitespace set of Python's `str.strip()`. -/
def isPySpace (c : Char) : Bool :=
  c == ' ' || c == '\n' || c == '\t' || c == '\r' || c == '\x0b' || c == '\x0c'

/-- Strip characters satisfying `p` from both ends of a list. -/
def stripCharsWith (p : Char → Bool) (l : List Char) : List Char :=
  ((l.dropWhile p).reverse.dropWhile p).reverse

/-- Python `str.strip()`. -/
def pyStrip (s : String) : String := ⟨stripCharsWith isPySpace s.data⟩

/-- Python `str.strip(chars)` for an explicit character set. -/
def pyStripSet (cs : List Char) (s : String) : String :=
  ⟨stripCharsWith (fun c => cs.contains c) s.data⟩

/-- Python `str.lower()` (ASCII case mapping suffices for the texts involved). -/
def lowerStr (s : String) : String := ⟨s.data.map Char.toLower⟩

/-- Python `str.upper()`. -/
def upperStr (s : String) : String := ⟨s.data.map Char.toUpper⟩

/-- Does `hay` start with `needle`? (char-list version) -/
def startsWithChars : List Char → List Char → Bool
  | _, [] => true
  | [], _ :: _ => false
  | h :: hs, n :: ns => h == n && startsWithChars hs ns

/-- Does `needle` occur as a contiguous run inside `hay`? -/
def hasSubChars : List Char → List Char → Bool
  | [], needle => needle.isEmpty
  | h :: t, needle => startsWithChars (h :: t) needle || hasSubChars t needle

/-- Python's `needle in hay` substring test. -/
def containsSub (hay needle : String) : Bool :=
  hasSubChars hay.data needle.data

/-! ## Data model (`sqlite_store.py` tables) -/

/-- One row of the `episodic_memory` table. -/
structure Episode where
  id : String
  summary : String
  full_text : String
  timestamp : ℤ
  embedding : Option (List ℚ)
  importance : ℚ
  emotional_valence : ℚ
  topics : List String
  entities : List String
  connections : List String
  status : String
deriving DecidableEq, Repr

/-- One row of the `semantic_memory` table. -/
structure SemFact where
  fact : String
  confidence : ℚ
  first_observed : ℤ
  last_confirmed : ℤ
  version_history : List String
  derived_from : List String
  contradictions : List String
  status : String
  embedding : Option (List ℚ)
deriving DecidableEq, Repr

/-- One row of the `relational_memory` table. -/
structure RelRow where
  category : String
  data : String
  confidence : ℚ
  evidence_count : ℤ
  last_updated : ℤ
deriving DecidableEq, Repr

/-- One row of the `emotional_thread` table. -/
structure EmoRow where
  id : String
  current_state : String
  recognized_from : List String
  should_acknowledge : Bool
  thread_length : ℤ
  last_update : ℤ
deriving DecidableEq, Repr

/-- The four logical tables of `SQLiteMemoryStore`. -/
structure Store where
  episodic : List Episode
  semantic : List SemFact
  relational : List RelRow
  emotional : List EmoRow
deriving DecidableEq, Repr

/-! ## `SQLiteMemoryStore.update_episode` -/

/-- One `key = value` entry of the `updates` dict passed to `update_episode`,
with the value typed according to the episodic column it patches. -/
inductive EpPatch where
  | summary (v : String)
  | full_text (v : String)
  | timestamp (v : ℤ)
  | embedding (v : Option (List ℚ))
  | importance (v : ℚ)
  | emotional_valence (v : ℚ)
  | topics (v : List String)
  | entities (v : List String)
  | connections (v : List String)
  | status (v : String)
deriving DecidableEq, Repr

/-- Apply a single column assignment of the generated `UPDATE` statement. -/
def applyPatch (e : Episode) : EpPatch → Episode
  | .summary v => { e with summary := v }
  | .full_text v => { e with full_text := v }
  | .timestamp v => { e with timestamp := v }
  | .embedding v => { e with embedding := v }
  | .importance v => { e with importance := v }
  | .emotional_valence v => { e with emotional_valence := v }
  | .topics v => { e with topics := v }
  | .entities v => { e with entities := v }
  | .connections v => { e with connections := v }
  | .status v => { e with status := v }

/-- Apply all column assignments of the `updates` dict to one row. -/
def applyPatches (e : Episode) (ps : List EpPatch) : Episode :=
  ps.foldl applyPatch e

/-- `SQLiteMemoryStore.update_episode(episode_id, updates)`: on an empty
`updates` dict it returns `False` before touching the database; otherwise it
runs `UPDATE episodic_memory SET ... WHERE id = ?` and reports
`cursor.rowcount > 0`. -/
def update_episode (s : Store) (episode_id : String) (updates : List EpPatch) :
    Bool × Store :=
  if updates.isEmpty then (false, s)
  else
    (!(s.episodic.filter (fun e => e.id == episode_id)).isEmpty,
     { s with episodic :=
         s.episodic.map (fun e =>
           if e.id == episode_id then applyPatches e updates else e) })

/-! ## `MemoryGate.should_remember` (`gates.py`) -/

/-- The explicit retention phrases of the gate's fast path. -/
def retention_keywords : List String :=
  ["remember this", "don\x27t forget", "take a note", "keep this in mind"]

/-- `MemoryGate.should_remember(user_msg, assistant_msg)`. The generator
call is modelled by its outcome `gen`: `Except.error ()` when
`generate_content` raises, otherwise `Except.ok text` with the response text.
`hasClient` models `self.client` being non-null. The assistant message only
feeds the prompt, never the decision. -/
def should_remember (user_msg _assistant_msg : String) (hasClient : Bool)
    (gen : Except Unit String) : Bool :=
  if retention_keywords.any (fun kw => containsSub (lowerStr user_msg) kw) then
    true
  else if !hasClient then
    true
  else
    match gen with
    | .error _ => true
    | .ok text => containsSub (upperStr (pyStrip text)) "YES"

/-! ## Theorems for claim C8 -/

/-- C8 counterexample: with user text containing no retention phrase and the
generator answering "EYES ONLY", `should_remember` returns `true` although the
answer does not begin with "YES" — the code tests `"YES" in decision`
(substring), not a "YES" prefix. -/
theorem C8_counterexample :
    (retention_keywords.any
      (fun kw => containsSub (lowerStr "how are you") kw)) = false ∧
    should_remember "how are you" "fine" true (Except.ok "EYES ONLY") = true ∧
    startsWithChars (pyStrip "EYES ONLY").data "YES".data = false := by
  refine ⟨by decide, by decide, by decide⟩

/-- C8 (amended): when the user text contains a retention phrase the gate
returns `true` whatever the generator outcome would be; otherwise, for any
generator answer, it returns `true` iff the stripped upper-cased answer
CONTAINS the substring "YES". On generator failure it returns `true`. -/
theorem C8_gate_decision (u m a : String) :
    (retention_keywords.any (fun kw => containsSub (lowerStr u) kw) = true →
      ∀ g : Except Unit String, should_remember u m true g = true) ∧
    (retention_keywords.any (fun kw => containsSub (lowerStr u) kw) = false →
      (should_remember u m true (Except.ok a) = true ↔
        containsSub (upperStr (pyStrip a)) "YES" = true)) ∧
    (should_remember u m true (Except.error ()) = true) := by
  refine ⟨fun h g => ?_, fun h => ?_, ?_⟩
  · simp [should_remember, h]
  · simp [should_remember, h]
  · by_cases h : retention_keywords.any
        (fun kw => containsSub (lowerStr u) kw) = true
    · simp [should_remember, h]
    · simp only [Bool.not_eq_true] at h
      simp [should_remember, h]

/-- C8 witness: the amended theorem applied at concrete inputs — the fast
path fires on "remember this: my dog is Pippin", and the answer "yes." makes
the gate return `true` on a neutral user text. -/
theorem C8_gate_decision_witness :
    should_remember "remember this: my dog is Pippin" "ok" true
      (Except.error ()) = true ∧
    should_remember "how are you" "fine" true (Except.ok "yes.") = true := by
  constructor
  · exact (C8_gate_decision "remember this: my dog is Pippin" "ok" "x").1
      (by decide) (Except.error ())
  · exact ((C8_gate_decision "how are you" "fine" "yes.").2.1
      (by decide)).mpr (by decide)

/-! ## Theorems for claim C10 -/

/-- C10: `update_episode` with an empty patch dict returns `False` and leaves
the whole store — every row of every table — unchanged: the early return
happens before any SQL is built or executed. -/
theorem C10_update_episode_empty_patch (s : Store) (episode_id : String) :
    update_episode s episode_id [] = (false, s) := by
  simp [update_episode]

/-! ## `ImportanceScorer.get_decayed_score` (`scoring.py`) -/

/-- `(datetime.now() - timestamp).days`: floor division of the elapsed
seconds by 86400 (`Int` division `/` is `Int.ediv`, floor division for a
positive divisor, exactly `timedelta.days`). -/
def ageDays (timestamp now : ℤ) : ℤ := (now - timestamp) / 86400

/-- `ImportanceScorer.get_decayed_score(base_score, timestamp_iso)`:
returns `base_score` when `age_days <= 0`; returns `0.0` when the half-life
`100 * base_score` is non-positive; otherwise
`base_score * exp(-age_days * log 2 / half_life)`. The `except` branch
(malformed ISO string) cannot fire in the model. -/
noncomputable def get_decayed_score (base_score : ℝ) (timestamp now : ℤ) : ℝ :=
  if ageDays timestamp now ≤ 0 then base_score
  else if (100 : ℝ) * base_score ≤ 0 then 0
  else base_score *
    Real.exp (-((ageDays timestamp now : ℤ) : ℝ) * Real.log 2 /
      ((100 : ℝ) * base_score))

/-! ## Theorems for claim C4 -/

/-- C4: importance decay is monotone non-increasing in the observation time,
equals the base at the capture instant, equals
`base * 2 ^ (-age_days / (100 * base))` for positive base and positive age,
and a base of `0` (the only non-positive value in `[0,1]`) yields `0`. -/
theorem C4_decay_monotone (base : ℝ) (t0 t1 t2 : ℤ)
    (hbase0 : 0 ≤ base) (hbase1 : base ≤ 1)
    (h01 : t0 ≤ t1) (h12 : t1 ≤ t2) :
    get_decayed_score base t0 t2 ≤ get_decayed_score base t0 t1 ∧
    get_decayed_score base t0 t0 = base ∧
    (0 < base → 0 < ageDays t0 t1 →
      get_decayed_score base t0 t1 =
        base * (2 : ℝ) ^ (-((ageDays t0 t1 : ℤ) : ℝ) / ((100 : ℝ) * base))) ∧
    (base = 0 → get_decayed_score base t0 t1 = 0) := by
  have hlog : (0 : ℝ) < Real.log 2 := Real.log_pos (by norm_num)
  have ha1 : 0 ≤ ageDays t0 t1 :=
    Int.ediv_nonneg (by omega) (by norm_num)
  have ha2 : 0 ≤ ageDays t0 t2 :=
    Int.ediv_nonneg (by omega) (by norm_num)
  have ha12 : ageDays t0 t1 ≤ ageDays t0 t2 :=
    Int.ediv_le_ediv (by norm_num) (by omega)
  refine ⟨?_, ?_, ?_, ?_⟩
  · by_cases h2 : ageDays t0 t2 ≤ 0
    · have h1 : ageDays t0 t1 ≤ 0 := le_trans ha12 h2
      simp [get_decayed_score, h1, h2]
    · push_neg at h2
      by_cases hb : (100 : ℝ) * base ≤ 0
      · have hb0 : base = 0 := by nlinarith
        subst hb0
        by_cases h1 : ageDays t0 t1 ≤ 0 <;>
          simp [get_decayed_score, h1, not_le.mpr h2]
      · push_neg at hb
        have hbpos : 0 < base := by nlinarith
        by_cases h1 : ageDays t0 t1 ≤ 0
        · have harg : -((ageDays t0 t2 : ℤ) : ℝ) * Real.log 2 /
              ((100 : ℝ) * base) ≤ 0 := by
            have hc : (0 : ℝ) ≤ ((ageDays t0 t2 : ℤ) : ℝ) := by
              exact_mod_cast ha2
            apply div_nonpos_of_nonpos_of_nonneg
            · nlinarith
            · nlinarith
          have hexp : Real.exp (-((ageDays t0 t2 : ℤ) : ℝ) * Real.log 2 /
              ((100 : ℝ) * base)) ≤ 1 := Real.exp_le_one_iff.mpr harg
          simp only [get_decayed_score, h1, if_pos, not_le.mpr h2, if_neg,
            not_le.mpr hb, if_false]
          nlinarith
        · have hargle : -((ageDays t0 t2 : ℤ) : ℝ) * Real.log 2 /
              ((100 : ℝ) * base) ≤
              -((ageDays t0 t1 : ℤ) : ℝ) * Real.log 2 /
              ((100 : ℝ) * base) := by
            apply div_le_div_of_nonneg_right _ (by nlinarith)
            have : ((ageDays t0 t1 : ℤ) : ℝ) ≤ ((ageDays t0 t2 : ℤ) : ℝ) :=
              Int.cast_le.mpr ha12
            nlinarith
          have hexp := Real.exp_le_exp.mpr hargle
          simp only [get_decayed_score, h1, not_le.mpr h2, if_neg,
            not_le.mpr hb, if_false]
          nlinarith [Real.exp_pos (-((ageDays t0 t2 : ℤ) : ℝ) * Real.log 2 /
            ((100 : ℝ) * base))]
  · have : ageDays t0 t0 = 0 := by
      simp [ageDays]
    simp [get_decayed_score, this]
  · intro hbpos hage
    have hb : ¬ ((100 : ℝ) * base ≤ 0) := by push_neg; nlinarith
    simp only [get_decayed_score, not_le.mpr hage, if_neg, hb, if_false]
    rw [Real.rpow_def_of_pos (by norm_num : (0 : ℝ) < 2)]
    rw [show Real.log 2 * (-((ageDays t0 t1 : ℤ) : ℝ) / ((100 : ℝ) * base)) =
      -((ageDays t0 t1 : ℤ) : ℝ) * Real.log 2 / ((100 : ℝ) * base) by ring]
  · intro hb0
    subst hb0
    by_cases h1 : ageDays t0 t1 ≤ 0 <;> simp [get_decayed_score, h1]

/-- C4 witness: the decay theorem applied at `base = 1/2`, capture time `0`,
observation times one and two days later. -/
theorem C4_decay_monotone_witness :
    get_decayed_score (1/2) 0 172800 ≤ get_decayed_score (1/2) 0 86400 ∧
    get_decayed_score (1/2) 0 0 = 1/2 := by
  have h := C4_decay_monotone (1/2) 0 86400 172800
    (by norm_num) (by norm_num) (by norm_num) (by norm_num)
  exact ⟨h.1, h.2.1⟩

/-! ## `SQLiteMemoryStore.search_episodes` (`sqlite_store.py`) -/

/-- Dot product of two embedding vectors (`np.dot` on the decoded blobs). -/
def dotQ (a b : List ℚ) : ℚ := (List.zipWith (· * ·) a b).sum

/-- Cosine similarity as computed by `search_episodes`:
`0.0` when either vector has norm zero, else
`dot(query, mem) / (norm(query) * norm(mem))`. The zero test on
`np.linalg.norm v` is expressed as `v ⬝ v = 0`, which is equivalent
(`‖v‖ = 0 ↔ Σ vᵢ² = 0`) and keeps the branch decidable. -/
noncomputable def cosineSim (query mem : List ℚ) : ℝ :=
  if dotQ mem mem = 0 ∨ dotQ query query = 0 then 0
  else ((dotQ query mem : ℚ) : ℝ) /
    (Real.sqrt ((dotQ query query : ℚ) : ℝ) *
     Real.sqrt ((dotQ mem mem : ℚ) : ℝ))

/-- `SQLiteMemoryStore.search_episodes(query_embedding, limit, status)`:
select rows with the given status, skip rows whose embedding is NULL,
attach cosine similarity, sort by similarity descending (Python's stable
sort) and return the first `limit`. -/
noncomputable def search_episodes (s : Store) (query_embedding : List ℚ)
    (limit : ℕ) (status : String) : List (Episode × ℝ) :=
  let rows := s.episodic.filter (fun e => e.status == status)
  let results := (rows.filter (fun e => e.embedding.isSome)).map
    (fun e => (e, cosineSim query_embedding (e.embedding.getD [])))
  (results.mergeSort (fun a b => decide (b.2 ≤ a.2))).take limit

/-! ## `EpisodicMemoryManager.retrieve_relevant` (`episodic.py`) -/

/-- The recency weight `1.0 / (1 + age_days / 30)` used in reranking. -/
noncomputable def recencyWeight (timestamp now : ℤ) : ℝ :=
  1 / (1 + ((ageDays timestamp now : ℤ) : ℝ) / 30)

/-- The rerank formula of `retrieve_relevant`:
`similarity * 0.5 + decayed_importance * 0.3 + recency_weight * 0.2`. -/
noncomputable def relevanceScore (now : ℤ) (e : Episode) (sim : ℝ) : ℝ :=
  sim * 0.5 + get_decayed_score (e.importance : ℝ) e.timestamp now * 0.3 +
    recencyWeight e.timestamp now * 0.2

/-- `EpisodicMemoryManager.retrieve_relevant(query, limit)`: embed the query
(`embedFn` models `embedding_service.embed`), over-fetch `limit * 4` active
candidates by similarity, rerank by `relevanceScore`, sort descending
(Python's stable sort) and return the first `limit`, each paired with its
relevance score. -/
noncomputable def retrieve_relevant (now : ℤ) (embedFn : String → List ℚ)
    (s : Store) (query : String) (limit : ℕ) : List (Episode × ℝ) :=
  let query_embedding := embedFn query
  let candidates := search_episodes s query_embedding (limit * 4) "active"
  let reranked := candidates.map (fun p => (p.1, relevanceScore now p.1 p.2))
  (reranked.mergeSort (fun a b => decide (b.2 ≤ a.2))).take limit

/-! ## Theorems for claim C3 -/

/-- Helper: members of `search_episodes` results carry the requested status
and a non-NULL embedding. -/
theorem search_episodes_mem_status {s : Store} {q : List ℚ} {limit : ℕ}
    {status : String} {p : Episode × ℝ}
    (hp : p ∈ search_episodes s q limit status) :
    p.1.status = status ∧ p.1.embedding.isSome := by
  unfold search_episodes at hp
  have hp2 := List.take_subset _ _ hp
  rw [List.mem_mergeSort] at hp2
  obtain ⟨e, he, rfl⟩ := List.mem_map.mp hp2
  have h1 := List.mem_filter.mp he
  have h2 := List.mem_filter.mp h1.1
  exact ⟨by simpa using h2.2, h1.2⟩

/-- C3: no episode with status `pending_embedding` ever appears in
`retrieve_relevant` results: retrieval only scans rows whose status is
exactly `active`. -/
theorem C3_retrieval_excludes_pending (now : ℤ) (embedFn : String → List ℚ)
    (s : Store) (query : String) (limit : ℕ) :
    ((retrieve_relevant now embedFn s query limit).map Prod.fst).all
      (fun e => e.status != "pending_embedding") = true := by
  rw [List.all_eq_true]
  intro e he
  obtain ⟨p, hp, rfl⟩ := List.mem_map.mp he
  unfold retrieve_relevant at hp
  have hp2 := List.take_subset _ _ hp
  rw [List.mem_mergeSort] at hp2
  obtain ⟨c, hc, rfl⟩ := List.mem_map.mp hp2
  have := (search_episodes_mem_status hc).1
  simp [this]

/-! ## Order facts about the descending stable sort -/

/-- The boolean relation of `list.sort(key=score, reverse=True)` on
score-annotated episodes: `a` may precede `b` iff `b`'s score is `≤ a`'s. -/
noncomputable def descBySnd (a b : Episode × ℝ) : Bool := decide (b.2 ≤ a.2)

theorem descBySnd_trans (a b c : Episode × ℝ) :
    descBySnd a b → descBySnd b c → descBySnd a c := by
  simp only [descBySnd, decide_eq_true_eq]
  exact fun h1 h2 => le_trans h2 h1

theorem descBySnd_total (a b : Episode × ℝ) :
    descBySnd a b || descBySnd b a := by
  simp only [descBySnd, Bool.or_eq_true, decide_eq_true_eq]
  exact (le_total b.2 a.2).imp id id

theorem mergeSort_descBySnd_pair (a b : Episode × ℝ) (h : b.2 ≤ a.2) :
    [a, b].mergeSort descBySnd = [a, b] :=
  List.mergeSort_of_sorted (by
    simp [List.pairwise_cons, descBySnd, h])

/-! ## Theorems for claim C5 -/

/-- The ordering the claim asserts for `retrieve_relevant` results:
descending by relevance score, ties broken by timestamp descending, then by
id ascending. Written from the claim's words, to be compared with what the
code produces. -/
def claimTieBreakOrdered (l : List (Episode × ℝ)) : Prop :=
  l.Pairwise (fun a b =>
    a.2 > b.2 ∨ (a.2 = b.2 ∧ (a.1.timestamp > b.1.timestamp ∨
      (a.1.timestamp = b.1.timestamp ∧ a.1.id ≤ b.1.id))))

/-- The two-episode store of the C5 tie: both episodes share the embedding
`[1]`, importance `1/2` and age zero, so their relevance scores tie; they
are stored oldest first. -/
def epC5a : Episode :=
  ⟨"a", "likes tea", "", 0, some [1], 1/2, 0, [], [], [], "active"⟩

/-- Second episode of the C5 tie, one hour newer than `epC5a`. -/
def epC5b : Episode :=
  ⟨"b", "likes coffee", "", 3600, some [1], 1/2, 0, [], [], [], "active"⟩

/-- Store holding the two tied episodes, oldest first. -/
def storeC5 : Store := ⟨[epC5a, epC5b], [], [], []⟩

theorem cosineSim_one_one : cosineSim [1] [1] = 1 := by
  unfold cosineSim dotQ
  norm_num [Real.sqrt_one]

theorem search_episodes_storeC5 :
    search_episodes storeC5 [1] 8 "active" = [(epC5a, 1), (epC5b, 1)] := by
  show List.take 8
      ((((storeC5.episodic.filter (fun e => e.status == "active")).filter
          (fun e => e.embedding.isSome)).map
        (fun e => (e, cosineSim [1] (e.embedding.getD [])))).mergeSort
        (fun a b => decide (b.2 ≤ a.2))) = [(epC5a, 1), (epC5b, 1)]
  rw [show (storeC5.episodic.filter (fun e => e.status == "active")).filter
        (fun e => e.embedding.isSome) = [epC5a, epC5b] by rfl]
  rw [show ([epC5a, epC5b].map
        (fun e => (e, cosineSim [1] (e.embedding.getD [])))) =
      [(epC5a, cosineSim [1] [1]), (epC5b, cosineSim [1] [1])] by rfl]
  rw [cosineSim_one_one]
  rw [show (fun (a b : Episode × ℝ) => decide (b.2 ≤ a.2)) = descBySnd from rfl]
  rw [mergeSort_descBySnd_pair _ _ (le_refl 1)]
  rfl

theorem relevanceScore_C5a : relevanceScore 3600 epC5a 1 = 0.85 := by
  unfold relevanceScore recencyWeight get_decayed_score epC5a
  norm_num [ageDays]

theorem relevanceScore_C5b : relevanceScore 3600 epC5b 1 = 0.85 := by
  unfold relevanceScore recencyWeight get_decayed_score epC5b
  norm_num [ageDays]

theorem retrieve_relevant_storeC5 :
    retrieve_relevant 3600 (fun _ => [1]) storeC5 "tea" 2 =
      [(epC5a, 0.85), (epC5b, 0.85)] := by
  show List.take 2
      (((search_episodes storeC5 [1] 8 "active").map
        (fun p => (p.1, relevanceScore 3600 p.1 p.2))).mergeSort
        (fun a b => decide (b.2 ≤ a.2))) = [(epC5a, 0.85), (epC5b, 0.85)]
  rw [search_episodes_storeC5]
  rw [show ([(epC5a, (1 : ℝ)), (epC5b, 1)].map
        (fun p => (p.1, relevanceScore 3600 p.1 p.2))) =
      [(epC5a, relevanceScore 3600 epC5a 1),
       (epC5b, relevanceScore 3600 epC5b 1)] by rfl]
  rw [relevanceScore_C5a, relevanceScore_C5b]
  rw [show (fun (a b : Episode × ℝ) => decide (b.2 ≤ a.2)) = descBySnd from rfl]
  rw [mergeSort_descBySnd_pair _ _ (le_refl (0.85 : ℝ))]
  rfl

/-- C5 counterexample: on two equally scored candidates stored oldest first,
`retrieve_relevant` returns them in candidate order (oldest first) — the
claimed timestamp-descending tie-break does not happen; the code's stable
sort never consults timestamps or ids. -/
theorem C5_counterexample :
    ¬ claimTieBreakOrdered (retrieve_relevant 3600 (fun _ => [1])
      storeC5 "tea" 2) := by
  rw [retrieve_relevant_storeC5]
  intro h
  rcases List.pairwise_cons.mp h with ⟨h1, -⟩
  rcases h1 _ (List.mem_singleton.mpr rfl) with h2 | ⟨-, h3 | ⟨h4, -⟩⟩
  · exact absurd h2 (lt_irrefl _)
  · revert h3
    unfold epC5a epC5b
    norm_num
  · revert h4
    unfold epC5a epC5b
    norm_num

/-- The intermediate `reranked` list of `retrieve_relevant`: the similarity
candidates, each annotated with its relevance score. -/
noncomputable def rerankedCandidates (now : ℤ) (embedFn : String → List ℚ)
    (s : Store) (query : String) (limit : ℕ) : List (Episode × ℝ) :=
  (search_episodes s (embedFn query) (limit * 4) "active").map
    (fun p => (p.1, relevanceScore now p.1 p.2))

theorem retrieve_relevant_eq (now : ℤ) (embedFn : String → List ℚ)
    (s : Store) (query : String) (limit : ℕ) :
    retrieve_relevant now embedFn s query limit =
      ((rerankedCandidates now embedFn s query limit).mergeSort
        descBySnd).take limit := rfl

/-- C5 (amended): `retrieve_relevant` takes `limit * 4` active candidates,
annotates each with `0.5·sim + 0.3·decayed + 0.2·recency`, sorts descending
by that score with a stable sort and returns the first `limit`: the result
length is `min limit #candidates`, the result is weakly descending in score,
every returned score is `≥` every score it drops, and ties keep candidate
order — in particular, when all scores tie the result is the first `limit`
candidates exactly as the similarity search ordered them. No timestamp or id
tie-break is applied. -/
theorem C5_retrieve_relevant_ranking (now : ℤ) (embedFn : String → List ℚ)
    (s : Store) (query : String) (limit : ℕ) :
    (retrieve_relevant now embedFn s query limit).length =
      min limit (rerankedCandidates now embedFn s query limit).length ∧
    (retrieve_relevant now embedFn s query limit).Pairwise
      (fun a b => b.2 ≤ a.2) ∧
    (∀ a ∈ retrieve_relevant now embedFn s query limit,
      ∀ b ∈ ((rerankedCandidates now embedFn s query limit).mergeSort
        descBySnd).drop limit, b.2 ≤ a.2) ∧
    ((∀ a ∈ rerankedCandidates now embedFn s query limit,
      ∀ b ∈ rerankedCandidates now embedFn s query limit, a.2 = b.2) →
      retrieve_relevant now embedFn s query limit =
        (rerankedCandidates now embedFn s query limit).take limit) := by
  have hsorted : ((rerankedCandidates now embedFn s query limit).mergeSort
      descBySnd).Pairwise (fun a b => b.2 ≤ a.2) := by
    have h := List.sorted_mergeSort descBySnd_trans descBySnd_total
      (rerankedCandidates now embedFn s query limit)
    exact h.imp (fun hab => by
      simpa [descBySnd, decide_eq_true_eq] using hab)
  refine ⟨?_, ?_, ?_, ?_⟩
  · rw [retrieve_relevant_eq, List.length_take, List.length_mergeSort]
  · rw [retrieve_relevant_eq]
    exact hsorted.sublist (List.take_sublist _ _)
  · intro a ha b hb
    rw [retrieve_relevant_eq] at ha
    have hsplit := List.take_append_drop limit
      ((rerankedCandidates now embedFn s query limit).mergeSort descBySnd)
    rw [← hsplit] at hsorted
    exact (List.pairwise_append.mp hsorted).2.2 a ha b hb
  · intro htie
    rw [retrieve_relevant_eq, List.mergeSort_of_sorted]
    apply List.pairwise_of_forall_mem_list
    intro a ha b hb
    simp only [descBySnd, decide_eq_true_eq]
    exact le_of_eq (htie b hb a ha)

/-- C5 witness: the ranking theorem applied to the concrete two-episode tied
store: all scores tie, so the result is the candidate list itself, oldest
episode first. -/
theorem C5_retrieve_relevant_ranking_witness :
    retrieve_relevant 3600 (fun _ => [1]) storeC5 "tea" 2 =
      (rerankedCandidates 3600 (fun _ => [1]) storeC5 "tea" 2).take 2 := by
  apply (C5_retrieve_relevant_ranking 3600 (fun _ => [1]) storeC5 "tea" 2).2.2.2
  intro a ha b hb
  have hcands : rerankedCandidates 3600 (fun _ => [1]) storeC5 "tea" 2 =
      [(epC5a, 0.85), (epC5b, 0.85)] := by
    unfold rerankedCandidates
    rw [show (2 : ℕ) * 4 = 8 from rfl, search_episodes_storeC5]
    rw [show ([(epC5a, (1 : ℝ)), (epC5b, 1)].map
          (fun p => (p.1, relevanceScore 3600 p.1 p.2))) =
        [(epC5a, relevanceScore 3600 epC5a 1),
         (epC5b, relevanceScore 3600 epC5b 1)] by rfl]
    rw [relevanceScore_C5a, relevanceScore_C5b]
  rw [hcands] at ha hb
  rcases List.mem_pair.mp ha with rfl | rfl <;>
    rcases List.mem_pair.mp hb with rfl | rfl <;> rfl

/-! ## `MemoryBudget.enforce` (`budget.py`) -/

/-- Number of episodes whose status is `active`. -/
def activeCount (s : Store) : ℕ :=
  (s.episodic.filter (fun e => e.status == "active")).length

/-- The pruning rank of `enforce`:
`decayed_importance * 0.6 + recency * 0.4`. -/
noncomputable def budgetRank (now : ℤ) (e : Episode) : ℝ :=
  get_decayed_score (e.importance : ℝ) e.timestamp now * 0.6 +
    recencyWeight e.timestamp now * 0.4

/-- `MemoryBudget.enforce()`: fetch at most `max_active + 100` active
episodes through `search_episodes` with an all-zero 768-dim query vector;
return unchanged if no more than `max_active` came back; otherwise rank them,
sort descending (stable), keep the first `max_active` rows untouched and flip
the status of the rest to `archived` one `update_episode` at a time. -/
noncomputable def enforce (now : ℤ) (max_active : ℕ) (s : Store) : Store :=
  let all_active := search_episodes s (List.replicate 768 0)
    (max_active + 100) "active"
  if all_active.length ≤ max_active then s
  else
    let sorted := (all_active.map
      (fun p => (p.1, budgetRank now p.1))).mergeSort descBySnd
    (sorted.drop max_active).foldl
      (fun st p => (update_episode st p.1.id [EpPatch.status "archived"]).2) s

/-- The ranked, descending-sorted active list inside `enforce`. -/
noncomputable def budgetSorted (now : ℤ) (max_active : ℕ) (s : Store) :
    List (Episode × ℝ) :=
  ((search_episodes s (List.replicate 768 0) (max_active + 100) "active").map
    (fun p => (p.1, budgetRank now p.1))).mergeSort descBySnd

/-! ## Pruning lemmas -/

theorem cosineSim_zero_query (q m : List ℚ) (h : dotQ q q = 0) :
    cosineSim q m = 0 := by
  unfold cosineSim
  rw [if_pos (Or.inr h)]

theorem dotQ_replicate_zero (n : ℕ) :
    dotQ (List.replicate n 0) (List.replicate n 0) = 0 := by
  induction n with
  | zero => rfl
  | succ k ih => simp [dotQ, List.replicate_succ, List.zipWith] at ih ⊢

/-- With an all-zero query vector every similarity is `0.0`, so the stable
sort leaves the row order untouched and `search_episodes` returns the first
`limit` rows with the requested status and a non-NULL embedding. -/
theorem search_episodes_zero_query (s : Store) (limit : ℕ) (status : String) :
    search_episodes s (List.replicate 768 0) limit status =
      (((s.episodic.filter (fun e => e.status == status)).filter
        (fun e => e.embedding.isSome)).map (fun e => (e, (0 : ℝ)))).take
        limit := by
  show List.take limit
      ((((s.episodic.filter (fun e => e.status == status)).filter
          (fun e => e.embedding.isSome)).map
        (fun e => (e, cosineSim (List.replicate 768 0)
          (e.embedding.getD [])))).mergeSort
        (fun a b => decide (b.2 ≤ a.2))) = _
  rw [List.map_congr_left (fun e _ => by
    rw [cosineSim_zero_query _ _ (dotQ_replicate_zero 768)])]
  rw [show (fun (a b : Episode × ℝ) => decide (b.2 ≤ a.2)) = descBySnd
    from rfl]
  rw [List.mergeSort_of_sorted (List.pairwise_of_forall_mem_list ?_)]
  intro a ha b hb
  obtain ⟨ea, -, rfl⟩ := List.mem_map.mp ha
  obtain ⟨eb, -, rfl⟩ := List.mem_map.mp hb
  simp [descBySnd]

/-- Row transformation performed by archiving every episode whose id is
listed in `R`. -/
def archiveIfIn (R : List String) (e : Episode) : Episode :=
  if R.contains e.id then { e with status := "archived" } else e

/-- Folding `update_episode(id, {status: archived})` over a list of rows is
one archiving map over the episodic table; the other tables are untouched. -/
theorem foldl_archive (L : List (Episode × ℝ)) (s : Store) :
    L.foldl (fun st p =>
        (update_episode st p.1.id [EpPatch.status "archived"]).2) s =
      { s with episodic :=
          s.episodic.map (archiveIfIn (L.map (fun p => p.1.id))) } := by
  induction L generalizing s with
  | nil =>
    have harch : archiveIfIn [] = fun e => e := by
      funext e
      simp [archiveIfIn]
    simp [harch]
  | cons p L ih =>
    rw [List.foldl_cons, ih]
    simp only [update_episode, List.isEmpty_cons, Bool.false_eq_true,
      if_false, List.map_map, List.map_cons]
    congr 1
    apply List.map_congr_left
    intro e _
    simp only [Function.comp_apply]
    by_cases h : e.id = p.1.id
    · rw [if_pos (by exact beq_iff_eq.mpr h)]
      rw [show applyPatches e [EpPatch.status "archived"] =
        { e with status := "archived" } from rfl]
      rw [show archiveIfIn (L.map (fun p => p.1.id))
          { e with status := "archived" } =
          { e with status := "archived" } by
        unfold archiveIfIn
        split <;> rfl]
      unfold archiveIfIn
      rw [if_pos (by
        rw [List.contains_cons]
        simp [h])]
    · rw [if_neg (by simp [h])]
      unfold archiveIfIn
      rw [List.contains_cons]
      rw [show (e.id == p.1.id) = false by simp [h], Bool.false_or]

/-- Archiving a duplicate-free list `R` of ids, all of which belong to active
rows, removes exactly `R.length` rows from the active count. -/
theorem archive_filter_length (epi : List Episode) (R : List String)
    (hR : R.Nodup)
    (hsub : ∀ i ∈ R,
      i ∈ (epi.filter (fun e => e.status == "active")).map (fun e => e.id))
    (hids : (epi.map (fun e => e.id)).Nodup) :
    ((epi.map (archiveIfIn R)).filter (fun e => e.status == "active")).length
      = (epi.filter (fun e => e.status == "active")).length - R.length := by
  set act := epi.filter (fun e => e.status == "active") with hact
  have hactids : (act.map (fun e => e.id)).Nodup :=
    List.Nodup.sublist ((List.filter_sublist _).map _) hids
  have h1 : ((epi.map (archiveIfIn R)).filter
      (fun e => e.status == "active")).length
      = epi.countP (fun e => !(R.contains e.id) && (e.status == "active")) := by
    rw [← List.countP_eq_length_filter, List.countP_map]
    apply List.countP_congr
    intro e _
    by_cases hc : e.id ∈ R <;>
      simp [Function.comp, archiveIfIn, hc]
  have h2 : epi.countP (fun e => !(R.contains e.id) && (e.status == "active"))
      = act.countP (fun e => !(R.contains e.id)) := by
    rw [hact, List.countP_filter]
  have h3 : act.countP (fun e => R.contains e.id) = R.length := by
    have hmap : act.countP (fun e => R.contains e.id)
        = (act.map (fun e => e.id)).countP (fun i => R.contains i) := by
      rw [List.countP_map]
      rfl
    rw [hmap, List.countP_eq_length_filter]
    apply List.Perm.length_eq
    apply (List.perm_ext_iff_of_nodup (List.Nodup.filter _ hactids) hR).mpr
    intro i
    simp only [List.mem_filter]
    constructor
    · rintro ⟨-, hi⟩
      simpa using hi
    · intro hi
      refine ⟨hsub i hi, by simpa using hi⟩
  have h4 : act.length = act.countP (fun e => R.contains e.id) +
      act.countP (fun e => !(R.contains e.id)) := by
    rw [List.length_eq_countP_add_countP (p := fun e => R.contains e.id)]
    congr 1
    apply List.countP_congr
    intro x _
    simp
  rw [h1, h2]
  omega

/-! ## Theorems for claim C1 -/

/-- C1 (amended): whenever the number of active episodes exceeds
`max_active` but is within reach of the sweep's fetch limit
`max_active + 100` (and active rows have distinct ids and non-NULL
embeddings, as the schema and lifecycle guarantee), `enforce` leaves exactly
`max_active` episodes active, every kept row's ranking score
`0.6·decayed + 0.4·recency` is `≥` every archived row's, and the post-state
archives precisely the rows the descending-sorted ranking drops. -/
theorem C1_budget_enforce (now : ℤ) (max_active : ℕ) (s : Store)
    (hids : (s.episodic.map (fun e => e.id)).Nodup)
    (hemb : ∀ e ∈ s.episodic, e.status = "active" →
      e.embedding.isSome = true)
    (hlow : max_active < activeCount s)
    (hhigh : activeCount s ≤ max_active + 100) :
    activeCount (enforce now max_active s) = max_active ∧
    (∀ p ∈ (budgetSorted now max_active s).take max_active,
      ∀ q ∈ (budgetSorted now max_active s).drop max_active, q.2 ≤ p.2) ∧
    (enforce now max_active s).episodic =
      s.episodic.map (archiveIfIn
        (((budgetSorted now max_active s).drop max_active).map
          (fun p => p.1.id))) := by
  set act := s.episodic.filter (fun e => e.status == "active") with hact
  have hactlen : act.length = activeCount s := rfl
  have hfe : act.filter (fun e => e.embedding.isSome) = act := by
    apply List.filter_eq_self.mpr
    intro e he
    have hm := List.mem_filter.mp he
    exact hemb e hm.1 (by simpa using hm.2)
  have hsearch : search_episodes s (List.replicate 768 0)
      (max_active + 100) "active" = act.map (fun e => (e, (0 : ℝ))) := by
    rw [search_episodes_zero_query, ← hact, hfe]
    apply List.take_of_length_le
    rw [List.length_map]
    omega
  have hslen : (budgetSorted now max_active s).length = activeCount s := by
    unfold budgetSorted
    rw [List.length_mergeSort, List.length_map, hsearch, List.length_map]
    exact hactlen
  have hperm : List.Perm ((budgetSorted now max_active s).map
      (fun p => p.1.id)) (act.map (fun e => e.id)) := by
    unfold budgetSorted
    refine ((List.mergeSort_perm _ _).map _).trans ?_
    rw [hsearch, List.map_map, List.map_map]
    exact List.Perm.refl _
  have hactids : (act.map (fun e => e.id)).Nodup :=
    List.Nodup.sublist ((List.filter_sublist _).map _) hids
  have hRnodup : ((((budgetSorted now max_active s).drop max_active).map
      (fun p => p.1.id))).Nodup := by
    rw [List.map_drop]
    exact List.Nodup.sublist (List.drop_sublist _ _)
      (hperm.nodup_iff.mpr hactids)
  have hRsub : ∀ i ∈ ((budgetSorted now max_active s).drop max_active).map
      (fun p => p.1.id), i ∈ act.map (fun e => e.id) := by
    intro i hi
    rw [List.map_drop] at hi
    exact hperm.mem_iff.mp (List.drop_subset _ _ hi)
  have hRlen : (((budgetSorted now max_active s).drop max_active).map
      (fun p => p.1.id)).length = activeCount s - max_active := by
    rw [List.length_map, List.length_drop, hslen]
  have henf : enforce now max_active s =
      { s with episodic := s.episodic.map (archiveIfIn
          (((budgetSorted now max_active s).drop max_active).map
            (fun p => p.1.id))) } := by
    have hcond : ¬ ((search_episodes s (List.replicate 768 0)
        (max_active + 100) "active").length ≤ max_active) := by
      rw [hsearch, List.length_map]
      omega
    have hstep : enforce now max_active s =
        ((budgetSorted now max_active s).drop max_active).foldl
          (fun st p =>
            (update_episode st p.1.id [EpPatch.status "archived"]).2) s := by
      simp only [enforce]
      rw [if_neg hcond]
      rfl
    rw [hstep, foldl_archive]
  have hsorted : (budgetSorted now max_active s).Pairwise
      (fun a b => b.2 ≤ a.2) := by
    have h := List.sorted_mergeSort descBySnd_trans descBySnd_total
      ((search_episodes s (List.replicate 768 0) (max_active + 100)
        "active").map (fun p => (p.1, budgetRank now p.1)))
    exact h.imp (fun hab => by
      simpa [descBySnd, decide_eq_true_eq] using hab)
  refine ⟨?_, ?_, ?_⟩
  · rw [henf]
    show ((s.episodic.map (archiveIfIn _)).filter
      (fun e => e.status == "active")).length = max_active
    rw [archive_filter_length _ _ hRnodup hRsub hids, ← hact, hactlen, hRlen]
    omega
  · intro p hp q hq
    have hsplit := List.take_append_drop max_active
      (budgetSorted now max_active s)
    rw [← hsplit] at hsorted
    exact (List.pairwise_append.mp hsorted).2.2 p hp q hq
  · rw [henf]

/-- Distinct opaque ids for the C1 over-limit store: the id of episode `n`
is the string of `n` letters `a`. -/
def idOfN (n : ℕ) : String := ⟨List.replicate n 'a'⟩

/-- Episode `n` of the C1 over-limit store: all 101 episodes are active,
embedded, equally important and equally old, differing only in id. -/
def mkEpC1 (n : ℕ) : Episode :=
  ⟨idOfN n, "turn", "", 0, some [1], 1/2, 0, [], [], [], "active"⟩

/-- A store with 101 active episodes — one more than the sweep's fetch limit
when `max_active = 0`. -/
def storeC1 : Store := ⟨(List.range 101).map mkEpC1, [], [], []⟩

theorem idOfN_inj : Function.Injective idOfN := by
  intro m n h
  have hd : List.replicate m 'a' = List.replicate n 'a' := congrArg String.data h
  have := congrArg List.length hd
  simpa using this

theorem storeC1_filter_active :
    storeC1.episodic.filter (fun e => e.status == "active") =
      storeC1.episodic := by
  apply List.filter_eq_self.mpr
  intro e he
  obtain ⟨n, -, rfl⟩ := List.mem_map.mp he
  rfl

theorem storeC1_filter_embedded :
    storeC1.episodic.filter (fun e => e.embedding.isSome) =
      storeC1.episodic := by
  apply List.filter_eq_self.mpr
  intro e he
  obtain ⟨n, -, rfl⟩ := List.mem_map.mp he
  rfl

theorem storeC1_search :
    search_episodes storeC1 (List.replicate 768 0) (0 + 100) "active" =
      ((List.range 100).map mkEpC1).map (fun e => (e, (0 : ℝ))) := by
  rw [search_episodes_zero_query, storeC1_filter_active,
    storeC1_filter_embedded]
  show ((((List.range 101).map mkEpC1).map (fun e => (e, (0 : ℝ)))).take
    (0 + 100)) = _
  rw [List.range_succ, List.map_append, List.map_append]
  apply List.take_left'
  rw [List.length_map, List.length_map, List.length_range]

/-- C1 counterexample: with `max_active = 0` and 101 active episodes — one
more than the fetch limit `max_active + 100` — the active set exceeds
`max_active`, yet after `enforce` one episode is still active: the sweep can
only archive the 100 rows its limited query returned. -/
theorem C1_counterexample :
    activeCount storeC1 = 101 ∧ activeCount (enforce 0 0 storeC1) = 1 := by
  constructor
  · show (storeC1.episodic.filter (fun e => e.status == "active")).length = 101
    rw [storeC1_filter_active]
    show (((List.range 101).map mkEpC1)).length = 101
    rw [List.length_map, List.length_range]
  · have hranked : (((List.range 100).map mkEpC1).map
        (fun e => (e, (0 : ℝ)))).map (fun p => (p.1, budgetRank 0 p.1)) =
        (List.range 100).map
          (fun n => (mkEpC1 n, budgetRank 0 (mkEpC1 0))) := by
      rw [List.map_map, List.map_map]
      apply List.map_congr_left
      intro n _
      rfl
    have hsort : ((List.range 100).map
        (fun n => (mkEpC1 n, budgetRank 0 (mkEpC1 0)))).mergeSort descBySnd =
        (List.range 100).map
          (fun n => (mkEpC1 n, budgetRank 0 (mkEpC1 0))) := by
      apply List.mergeSort_of_sorted
      apply List.pairwise_of_forall_mem_list
      intro a ha b hb
      obtain ⟨m, -, rfl⟩ := List.mem_map.mp ha
      obtain ⟨k, -, rfl⟩ := List.mem_map.mp hb
      simp [descBySnd]
    have henf : enforce 0 0 storeC1 =
        { storeC1 with episodic :=
            storeC1.episodic.map (archiveIfIn (((List.range 100).map
              (fun n => (mkEpC1 n, budgetRank 0 (mkEpC1 0)))).map
                (fun p => p.1.id))) } := by
      have hcond : ¬ ((search_episodes storeC1 (List.replicate 768 0)
          (0 + 100) "active").length ≤ 0) := by
        rw [storeC1_search, List.length_map, List.length_map,
          List.length_range]
        omega
      have hstep : enforce 0 0 storeC1 =
          (((search_episodes storeC1 (List.replicate 768 0) (0 + 100)
            "active").map (fun p => (p.1, budgetRank 0 p.1))).mergeSort
              descBySnd).foldl
            (fun st p =>
              (update_episode st p.1.id [EpPatch.status "archived"]).2)
            storeC1 := by
        simp only [enforce]
        rw [if_neg hcond]
        rw [List.drop_zero]
      rw [hstep, storeC1_search, hranked, hsort, foldl_archive]
    rw [henf]
    show ((storeC1.episodic.map (archiveIfIn _)).filter
      (fun e => e.status == "active")).length = 1
    have hR : (((List.range 100).map
        (fun n => (mkEpC1 n, budgetRank 0 (mkEpC1 0)))).map
          (fun p => p.1.id)) = (List.range 100).map idOfN := by
      rw [List.map_map]
      apply List.map_congr_left
      intro n _
      rfl
    rw [hR]
    show ((((List.range 101).map mkEpC1).map
      (archiveIfIn ((List.range 100).map idOfN))).filter
      (fun e => e.status == "active")).length = 1
    have hmap : ((List.range 101).map mkEpC1).map
        (archiveIfIn ((List.range 100).map idOfN)) =
        (List.range 100).map
          (fun n => { mkEpC1 n with status := "archived" }) ++
          [mkEpC1 100] := by
      rw [show List.range 101 = List.range 100 ++ [100] from
        List.range_succ 100]
      rw [List.map_append, List.map_append, List.map_map]
      refine congrArg₂ (· ++ ·) ?_ ?_
      · apply List.map_congr_left
        intro n hn
        have hmem : idOfN n ∈ (List.range 100).map idOfN :=
          List.mem_map.mpr ⟨n, hn, rfl⟩
        have hc : ((List.range 100).map idOfN).contains (idOfN n) = true := by
          simpa using hmem
        have hc2 : ((List.range 100).map idOfN).contains
            ((mkEpC1 n).id) = true := hc
        simp only [Function.comp_apply]
        unfold archiveIfIn
        rw [if_pos hc2]
      · have hc : ((List.range 100).map idOfN).contains (idOfN 100) =
            false := by
          rw [Bool.eq_false_iff]
          intro hc
          have hmem : idOfN 100 ∈ (List.range 100).map idOfN := by
            simpa using hc
          obtain ⟨m, hm, hid⟩ := List.mem_map.mp hmem
          have := idOfN_inj hid
          rw [this] at hm
          exact absurd (List.mem_range.mp hm) (by omega)
        have hc2 : ((List.range 100).map idOfN).contains
            ((mkEpC1 100).id) = false := hc
        simp only [List.map_cons, List.map_nil]
        unfold archiveIfIn
        rw [if_neg (by rw [hc2]; simp)]
    rw [hmap, List.filter_append]
    have hfil1 : ((List.range 100).map
        (fun n => { mkEpC1 n with status := "archived" })).filter
        (fun e => e.status == "active") = [] := by
      rw [List.filter_eq_nil_iff]
      intro e he
      obtain ⟨n, -, rfl⟩ := List.mem_map.mp he
      simp
    have hfil2 : ([mkEpC1 100]).filter (fun e => e.status == "active") =
        [mkEpC1 100] := by
      rfl
    rw [hfil1, hfil2]
    rfl

/-- C1 witness: the amended theorem applied to a concrete store with two
active episodes and `max_active = 1` — exactly one episode stays active. -/
theorem C1_budget_enforce_witness :
    activeCount (enforce 3600 1 storeC5) = 1 :=
  (C1_budget_enforce 3600 1 storeC5 (by decide) (by decide) (by decide)
    (by decide)).1

/-! ## `EpisodeClustering` (`consolidation.py`) -/

/-- Sequential chunking `cluster[i : i + n]` for `i in range(0, len, n)`,
written with an explicit fuel (the list length: each step removes at least
one element when `n ≥ 1`) so that the recursion is structural. `n = 0`,
which would raise `ValueError` in Python's `range`, is unreachable because
callers guard `max_cluster_size ≥ 1`. -/
def chunkSeqAux (n : ℕ) : ℕ → List Episode → List (List Episode)
  | 0, _ => []
  | _, [] => []
  | fuel + 1, x :: xs =>
    if n = 0 then []
    else (x :: xs).take n :: chunkSeqAux n fuel ((x :: xs).drop n)

/-- `cluster[i : i + n]` for `i in range(0, len(cluster), n)`. -/
def chunkSeq (n : ℕ) (l : List Episode) : List (List Episode) :=
  chunkSeqAux n l.length l

theorem chunkSeqAux_length_le (n : ℕ) :
    ∀ (fuel : ℕ) (l : List Episode), ∀ c ∈ chunkSeqAux n fuel l,
      c.length ≤ n := by
  intro fuel
  induction fuel with
  | zero =>
    intro l c hc
    simp [chunkSeqAux] at hc
  | succ k ih =>
    intro l c hc
    match l with
    | [] => simp [chunkSeqAux] at hc
    | x :: xs =>
      rw [chunkSeqAux] at hc
      by_cases h : n = 0
      · rw [if_pos h] at hc
        simp at hc
      · rw [if_neg h] at hc
        rcases List.mem_cons.mp hc with rfl | hc2
        · exact List.length_take_le _ _
        · exact ih _ c hc2

theorem chunkSeq_length_le (n : ℕ) (l : List Episode) :
    ∀ c ∈ chunkSeq n l, c.length ≤ n :=
  chunkSeqAux_length_le n l.length l

/-- One insertion step of the label-grouping dict of `cluster_episodes`:
noise points (label `-1`) are stored under the fresh-ish key
`len(clusters)` — a plain dict assignment, which replaces any existing entry
with that key — while real labels append to their cluster, creating it at the
end of the (insertion-ordered) dict when new. -/
def groupStep (acc : List (ℤ × List Episode)) (p : Episode × ℤ) :
    List (ℤ × List Episode) :=
  if p.2 = -1 then
    let key : ℤ := (acc.length : ℤ)
    if (acc.map Prod.fst).contains key then
      acc.map (fun kv => if kv.1 = key then (key, [p.1]) else kv)
    else acc ++ [(key, [p.1])]
  else
    if (acc.map Prod.fst).contains p.2 then
      acc.map (fun kv => if kv.1 = p.2 then (kv.1, kv.2 ++ [p.1]) else kv)
    else acc ++ [(p.2, [p.1])]

/-- `EpisodeClustering.cluster_episodes(episodes)`: too few episodes become
singletons; otherwise rows with decodable embeddings are labelled by HDBSCAN
— modelled by the oracle `labelsFn`, since the library clustering is
external — and grouped by label, noise points becoming their own clusters. -/
def cluster_episodes (labelsFn : List (List ℚ) → List ℤ)
    (min_cluster_size : ℕ) (episodes : List Episode) :
    List (List Episode) :=
  if episodes.length < min_cluster_size then episodes.map (fun e => [e])
  else
    let valid := episodes.filter (fun e => e.embedding.isSome)
    if valid.length < min_cluster_size then valid.map (fun e => [e])
    else
      let labels := labelsFn (valid.map (fun e => e.embedding.getD []))
      ((valid.zip labels).foldl groupStep []).map Prod.snd

/-- `EpisodeClustering.split_large_clusters(clusters)`: clusters within
`max_cluster_size` pass through; a larger one is re-clustered — the loop
retries `cluster_episodes(cluster)` with `min_size` from
`max(max_cluster_size / 2 + 1, 2)` up to `max_cluster_size`, but the call
never passes `min_size` on, so every retry yields the same result — and is
kept if every subcluster fits, else chunked sequentially. -/
def split_large_clusters (labelsFn : List (List ℚ) → List ℤ)
    (min_cluster_size max_cluster_size : ℕ)
    (clusters : List (List Episode)) : List (List Episode) :=
  clusters.foldl (fun result cluster =>
    if cluster.length ≤ max_cluster_size then result ++ [cluster]
    else
      let min0 := Nat.max (max_cluster_size / 2 + 1) 2
      let subclusters := cluster_episodes labelsFn min_cluster_size cluster
      if min0 ≤ max_cluster_size ∧
          subclusters.all (fun c => c.length ≤ max_cluster_size) then
        result ++ subclusters
      else result ++ chunkSeq max_cluster_size cluster) []

/-- `EpisodeClustering.create_consolidation_batches(episodes)`: cluster,
split the large clusters, then re-chunk any batch that still exceeds
`max_cluster_size`. -/
def create_consolidation_batches (labelsFn : List (List ℚ) → List ℤ)
    (min_cluster_size max_cluster_size : ℕ) (episodes : List Episode) :
    List (List Episode) :=
  if episodes.isEmpty then []
  else
    let clusters := cluster_episodes labelsFn min_cluster_size episodes
    let batches := split_large_clusters labelsFn min_cluster_size
      max_cluster_size clusters
    batches.foldl (fun final batch =>
      if batch.length ≤ max_cluster_size then final ++ [batch]
      else final ++ chunkSeq max_cluster_size batch) []

/-! ## Theorems for claim C7 -/

/-- A for-loop that appends `g x` for each element is a `flatMap`. -/
theorem foldl_append_eq_flatMap {α β : Type} (g : α → List β)
    (l : List α) (init : List β) :
    l.foldl (fun acc x => acc ++ g x) init = init ++ l.flatMap g := by
  induction l generalizing init with
  | nil => simp
  | cons x xs ih =>
    rw [List.foldl_cons, ih, List.flatMap_cons, List.append_assoc]

theorem create_batches_eq (labelsFn : List (List ℚ) → List ℤ)
    (min_cluster_size max_cluster_size : ℕ) (episodes : List Episode) :
    create_consolidation_batches labelsFn min_cluster_size max_cluster_size
      episodes =
      if episodes.isEmpty then []
      else (split_large_clusters labelsFn min_cluster_size max_cluster_size
        (cluster_episodes labelsFn min_cluster_size episodes)).flatMap
        (fun batch => if batch.length ≤ max_cluster_size then [batch]
          else chunkSeq max_cluster_size batch) := by
  simp only [create_consolidation_batches]
  split
  · rfl
  · rw [show (fun (final : List (List Episode)) batch =>
        if batch.length ≤ max_cluster_size then final ++ [batch]
        else final ++ chunkSeq max_cluster_size batch) =
        (fun final batch => final ++
          (if batch.length ≤ max_cluster_size then [batch]
            else chunkSeq max_cluster_size batch)) by
      funext acc x
      split <;> rfl]
    rw [foldl_append_eq_flatMap, List.nil_append]

/-- C7: for `max_cluster_size ≥ 1`, every batch produced by
`create_consolidation_batches` has at most `max_cluster_size` episodes —
whatever the clustering oracle labels, the final safety pass re-chunks
anything larger. -/
theorem C7_batch_size_bound (labelsFn : List (List ℚ) → List ℤ)
    (min_cluster_size max_cluster_size : ℕ)
    (_hmax : 1 ≤ max_cluster_size) (episodes : List Episode) :
    ∀ b ∈ create_consolidation_batches labelsFn min_cluster_size
      max_cluster_size episodes, b.length ≤ max_cluster_size := by
  intro b hb
  rw [create_batches_eq] at hb
  by_cases hemp : episodes.isEmpty
  · rw [if_pos hemp] at hb
    simp at hb
  · rw [if_neg hemp] at hb
    obtain ⟨batch, -, hmem⟩ := List.mem_flatMap.mp hb
    by_cases hfit : batch.length ≤ max_cluster_size
    · rw [if_pos hfit] at hmem
      rw [List.mem_singleton.mp hmem]
      exact hfit
    · rw [if_neg hfit] at hmem
      exact chunkSeq_length_le _ _ b hmem

/-- C7 witness: the bound applied to a one-episode store with the default
sizes — the single batch `[epC5a]` fits. -/
theorem C7_batch_size_bound_witness :
    [epC5a] ∈ create_consolidation_batches (fun _ => []) 3 50 [epC5a] ∧
    [epC5a].length ≤ 50 := by
  have hres : create_consolidation_batches (fun _ => []) 3 50 [epC5a] =
      [[epC5a]] := rfl
  constructor
  · rw [hres]
    exact List.mem_singleton.mpr rfl
  · exact C7_batch_size_bound (fun _ => []) 3 50 (by decide) [epC5a]
      [epC5a] (by rw [hres]; exact List.mem_singleton.mpr rfl)

/-! ## Consolidation (`consolidation.py`, `deep_layers.py`) -/

/-- `SQLiteMemoryStore.add_semantic_fact`: INSERT with a fresh uuid primary
key, modelled as appending the row. -/
def add_semantic_fact (s : Store) (f : SemFact) : Store :=
  { s with semantic := s.semantic ++ [f] }

/-- `SQLiteMemoryStore.update_relational_memory(category, data, confidence)`:
INSERT OR REPLACE keyed by category, incrementing the evidence count
(`COALESCE(prev + 1, 1)`). -/
def update_relational_memory (s : Store) (now : ℤ) (category : String)
    (dataJson : String) (confidence : ℚ) : Store :=
  let count : ℤ :=
    match s.relational.filter (fun r => r.category == category) with
    | [] => 1
    | r :: _ => r.evidence_count + 1
  { s with relational :=
      (s.relational.filter (fun r => !(r.category == category))) ++
        [⟨category, dataJson, confidence, count, now⟩] }

/-- Python `text.split("\n")` on the character list: split at every
newline, keeping empty pieces. -/
def splitLinesChars : List Char → List (List Char)
  | [] => [[]]
  | c :: rest =>
    let r := splitLinesChars rest
    if c = '\n' then [] :: r
    else (c :: r.headD []) :: r.tail

/-- Python `text.split("\n")`. -/
def splitLines (s : String) : List String :=
  (splitLinesChars s.data).map (fun l => ⟨l⟩)

/-- The fact lines parsed from a generator response in
`extract_facts_from_batch`: split on newlines, keep lines that are non-empty
after stripping, strip `"- "` characters then whitespace from each, and keep
facts longer than 5 characters. -/
def parseFacts (text : String) : List String :=
  (((splitLines text).filter (fun line => pyStrip line ≠ "")).map
    (fun line => pyStrip (pyStripSet ['-', ' '] line))).filter
    (fun fact => 5 < fact.length)

/-- The semantic rows one call of `extract_facts_from_batch` inserts for a
given cluster list: one per parsed fact, each with confidence `0.7`, status
`stable` and `derived_from` the ids of every episode of every cluster. -/
def factsOfClusters (gen : Except Unit String)
    (embedBatch : List String → List (List ℚ)) (now : ℤ) (hasClient : Bool)
    (clusters : List (List Episode)) : List SemFact :=
  if clusters.isEmpty || !hasClient then []
  else
    match gen with
    | .error _ => []
    | .ok text =>
      let facts := parseFacts text
      if facts.isEmpty then []
      else
        (facts.zip (embedBatch facts)).map (fun p =>
          { fact := p.1, confidence := 7/10, first_observed := now,
            last_confirmed := now, version_history := [],
            derived_from := (clusters.flatMap (fun c => c)).map
              (fun e => e.id),
            contradictions := [], status := "stable",
            embedding := some p.2 })

/-- `SemanticExtractor.extract_facts_from_batch(clusters)`: prompt the
generator once for all clusters (`gen` is its outcome; exceptions are caught
inside, leaving the store unchanged), parse the response into fact lines,
batch-embed them, and insert each with confidence `0.7`, status `stable`,
and `derived_from` the ids of all episodes of all clusters. -/
def extract_facts_from_batch (gen : Except Unit String)
    (embedBatch : List String → List (List ℚ)) (now : ℤ) (hasClient : Bool)
    (s : Store) (clusters : List (List Episode)) : Store :=
  if clusters.isEmpty || !hasClient then s
  else
    match gen with
    | .error _ => s
    | .ok text =>
      let facts := parseFacts text
      if facts.isEmpty then s
      else
        let embeddings := embedBatch facts
        let all_episode_ids := (clusters.flatMap (fun c => c)).map
          (fun e => e.id)
        (facts.zip embeddings).foldl (fun st p =>
          add_semantic_fact st
            { fact := p.1, confidence := 7/10, first_observed := now,
              last_confirmed := now, version_history := [],
              derived_from := all_episode_ids, contradictions := [],
              status := "stable", embedding := some p.2 }) s

/-- Modelled from the spec: `perform_consolidation` invokes
`self.semantic_extractor.extract_facts_batched(batch)`, a method that exists
nowhere in the repository — `deep_layers.py` defines only
`extract_facts_from_batch`, which expects a list of clusters. Spec steps 4–5
prescribe per-batch extraction, modelled as `extract_facts_from_batch`
applied to the singleton cluster list `[batch]`. -/
def extract_facts_batched (gen : Except Unit String)
    (embedBatch : List String → List (List ℚ)) (now : ℤ) (hasClient : Bool)
    (s : Store) (batch : List Episode) : Store :=
  extract_facts_from_batch gen embedBatch now hasClient s [batch]

/-- Modelled from the spec: `get_unconsolidated_episodes(status)` is listed
among the Store operations (§4.1) but is missing from `sqlite_store.py`;
consolidation step 1 loads the unconsolidated episodes with the given
status. -/
def get_unconsolidated_episodes (s : Store) (status : String) :
    List Episode :=
  s.episodic.filter (fun e => e.status == status)

/-- Modelled from the spec: `mark_consolidated([id]) → bool` (§4.1; step 6
"mark all processed episode ids as consolidated in one transaction") is
missing from `sqlite_store.py`; modelled as flipping the status of every
listed row to `consolidated`. -/
def mark_episodes_consolidated (s : Store) (ids : List String) : Store :=
  { s with episodic := s.episodic.map (fun e =>
      if ids.contains e.id then { e with status := "consolidated" } else e) }

/-- `RelationalManager.analyze_relationship(episodes)`: ask the generator to
summarize interaction style and upsert it under category
`interaction_style` with confidence `0.8`; failures leave the store
unchanged. -/
def analyze_relationship (relGen : Except Unit String) (now : ℤ)
    (hasClient : Bool) (episodes : List Episode) (s : Store) : Store :=
  if episodes.isEmpty || !hasClient then s
  else
    match relGen with
    | .error _ => s
    | .ok text =>
      update_relational_memory s now "interaction_style" (pyStrip text)
        (4/5)

/-- The batch loop of `perform_consolidation`: batch `i` is extracted with
generator outcome `gens i` (`extract_facts_from_batch` swallows its own
exceptions, so in this model no batch ever raises into the loop), and its
episode ids are appended to the processed list. -/
def processBatches (gens : ℕ → Except Unit String)
    (embedBatch : List String → List (List ℚ)) (now : ℤ) (hasClient : Bool) :
    ℕ → Store → List (List Episode) → Store × List String
  | _, st, [] => (st, [])
  | i, st, batch :: rest =>
    let st2 := extract_facts_batched (gens i) embedBatch now hasClient st
      batch
    let res := processBatches gens embedBatch now hasClient (i + 1) st2 rest
    (res.1, batch.map (fun e => e.id) ++ res.2)

/-- `ConsolidationManager.perform_consolidation()`: load unconsolidated
active episodes, batch them by clustering, extract facts per batch, mark the
processed ids consolidated, then run the relational analysis pass. -/
def perform_consolidation (gens : ℕ → Except Unit String)
    (relGen : Except Unit String)
    (embedBatch : List String → List (List ℚ))
    (labelsFn : List (List ℚ) → List ℤ)
    (min_cluster_size max_cluster_size : ℕ) (now : ℤ) (hasClient : Bool)
    (s : Store) : Store :=
  let episodes := get_unconsolidated_episodes s "active"
  if episodes.isEmpty then s
  else
    let batches := create_consolidation_batches labelsFn min_cluster_size
      max_cluster_size episodes
    let res := processBatches gens embedBatch now hasClient 0 s batches
    let s2 := if res.2.isEmpty then res.1
      else mark_episodes_consolidated res.1 res.2
    analyze_relationship relGen now hasClient episodes s2

/-! ## Theorems for claim C6 -/

/-- Row transformation performed by marking the ids in `R` consolidated. -/
def consolidateIfIn (R : List String) (e : Episode) : Episode :=
  if R.contains e.id then { e with status := "consolidated" } else e

/-- The facts inserted by one whole consolidation run: batch `j` (taken at
offset `i` of the generator-outcome stream) contributes the facts of
`extract_facts_batched`. -/
def flatFacts (gens : ℕ → Except Unit String)
    (embedBatch : List String → List (List ℚ)) (now : ℤ) (hasClient : Bool) :
    ℕ → List (List Episode) → List SemFact
  | _, [] => []
  | i, b :: rest =>
    factsOfClusters (gens i) embedBatch now hasClient [b] ++
      flatFacts gens embedBatch now hasClient (i + 1) rest

theorem foldl_add_fact (g : String × List ℚ → SemFact)
    (l : List (String × List ℚ)) (s : Store) :
    l.foldl (fun st p => add_semantic_fact st (g p)) s =
      { s with semantic := s.semantic ++ l.map g } := by
  induction l generalizing s with
  | nil => simp
  | cons p rest ih =>
    rw [List.foldl_cons, ih]
    simp [add_semantic_fact]

/-- `extract_facts_from_batch` appends exactly `factsOfClusters` to the
semantic table and leaves every other table unchanged. -/
theorem extract_facts_from_batch_eq (gen : Except Unit String)
    (embedBatch : List String → List (List ℚ)) (now : ℤ) (hasClient : Bool)
    (s : Store) (clusters : List (List Episode)) :
    extract_facts_from_batch gen embedBatch now hasClient s clusters =
      { s with semantic := s.semantic ++
          factsOfClusters gen embedBatch now hasClient clusters } := by
  unfold extract_facts_from_batch factsOfClusters
  by_cases h1 : clusters.isEmpty || !hasClient
  · simp [h1]
  · cases gen with
    | error e => simp [h1]
    | ok text =>
      by_cases h2 : (parseFacts text).isEmpty
      · simp [h1, h2]
      · simp only [h1, h2, Bool.false_eq_true, if_false]
        exact foldl_add_fact _ _ _

theorem processBatches_spec (gens : ℕ → Except Unit String)
    (embedBatch : List String → List (List ℚ)) (now : ℤ) (hasClient : Bool) :
    ∀ (batches : List (List Episode)) (i : ℕ) (st : Store),
      processBatches gens embedBatch now hasClient i st batches =
        ({ st with semantic := st.semantic ++
            flatFacts gens embedBatch now hasClient i batches },
         batches.flatMap (fun b => b.map (fun e => e.id))) := by
  intro batches
  induction batches with
  | nil =>
    intro i st
    simp [processBatches, flatFacts]
  | cons b rest ih =>
    intro i st
    rw [processBatches]
    rw [show extract_facts_batched (gens i) embedBatch now hasClient st b =
      extract_facts_from_batch (gens i) embedBatch now hasClient st [b]
      from rfl]
    rw [extract_facts_from_batch_eq, ih]
    rw [flatFacts, List.flatMap_cons]
    simp [List.append_assoc]

theorem factsOfClusters_mem (gen : Except Unit String)
    (embedBatch : List String → List (List ℚ)) (now : ℤ) (hasClient : Bool)
    (clusters : List (List Episode)) (f : SemFact)
    (hf : f ∈ factsOfClusters gen embedBatch now hasClient clusters) :
    f.confidence = 7/10 ∧ f.status = "stable" ∧
      f.derived_from = (clusters.flatMap (fun c => c)).map
        (fun e => e.id) := by
  unfold factsOfClusters at hf
  by_cases h1 : clusters.isEmpty || !hasClient
  · rw [if_pos h1] at hf
    simp at hf
  · rw [if_neg h1] at hf
    cases gen with
    | error e => simp at hf
    | ok text =>
      by_cases h2 : (parseFacts text).isEmpty
      · simp [h2] at hf
      · simp only [h2, Bool.false_eq_true, if_false] at hf
        obtain ⟨p, -, rfl⟩ := List.mem_map.mp hf
        exact ⟨rfl, rfl, rfl⟩

theorem flatFacts_mem (gens : ℕ → Except Unit String)
    (embedBatch : List String → List (List ℚ)) (now : ℤ) (hasClient : Bool) :
    ∀ (batches : List (List Episode)) (i : ℕ) (f : SemFact),
      f ∈ flatFacts gens embedBatch now hasClient i batches →
      ∃ b ∈ batches, ∃ j,
        f ∈ factsOfClusters (gens j) embedBatch now hasClient [b] := by
  intro batches
  induction batches with
  | nil =>
    intro i f hf
    simp [flatFacts] at hf
  | cons b rest ih =>
    intro i f hf
    rw [flatFacts] at hf
    rcases List.mem_append.mp hf with h | h
    · exact ⟨b, List.mem_cons_self _ _, i, h⟩
    · obtain ⟨b2, hb2, j, hj⟩ := ih (i + 1) f h
      exact ⟨b2, List.mem_cons_of_mem _ hb2, j, hj⟩

theorem map_consolidateIfIn_nil (l : List Episode) :
    l.map (consolidateIfIn []) = l := by
  have h : consolidateIfIn [] = id := funext fun e => by
    simp [consolidateIfIn]
  rw [h, List.map_id]

theorem analyze_relationship_frame (relGen : Except Unit String) (now : ℤ)
    (hasClient : Bool) (episodes : List Episode) (s : Store) :
    (analyze_relationship relGen now hasClient episodes s).semantic =
        s.semantic ∧
      (analyze_relationship relGen now hasClient episodes s).episodic =
        s.episodic := by
  unfold analyze_relationship
  by_cases h1 : episodes.isEmpty || !hasClient
  · rw [if_pos h1]
    exact ⟨rfl, rfl⟩
  · rw [if_neg h1]
    cases relGen with
    | error e => exact ⟨rfl, rfl⟩
    | ok text => exact ⟨rfl, rfl⟩

theorem flatFacts_flat_derived (gens : ℕ → Except Unit String)
    (embedBatch : List String → List (List ℚ)) (now : ℤ)
    (hasClient : Bool) :
    ∀ (batches : List (List Episode)) (i : ℕ),
      (∀ j, j < batches.length →
        (factsOfClusters (gens (i + j)) embedBatch now hasClient
          [batches.getD j []]).length = 1) →
      (flatFacts gens embedBatch now hasClient i batches).flatMap
        (fun f => f.derived_from) =
        batches.flatMap (fun b => b.map (fun e => e.id)) := by
  intro batches
  induction batches with
  | nil =>
    intro i _
    simp [flatFacts]
  | cons b rest ih =>
    intro i hyp
    have h0 : (factsOfClusters (gens i) embedBatch now hasClient
        [b]).length = 1 := by
      have := hyp 0 (by simp)
      simpa using this
    obtain ⟨f, hf⟩ := List.length_eq_one.mp h0
    have hfm : f ∈ factsOfClusters (gens i) embedBatch now hasClient [b] := by
      rw [hf]
      exact List.mem_singleton.mpr rfl
    have hder := (factsOfClusters_mem _ _ _ _ _ _ hfm).2.2
    have hder2 : f.derived_from = b.map (fun e => e.id) := by
      rw [hder]
      simp
    rw [flatFacts, List.flatMap_cons, List.flatMap_append, hf]
    rw [ih (i + 1) (fun j hj => by
      have := hyp (j + 1) (by simpa using Nat.succ_lt_succ hj)
      rw [show i + (j + 1) = i + 1 + j by omega] at this
      simpa using this)]
    simp [hder2]

/-- C6 (amended; the store operations `get_unconsolidated_episodes` and
`mark_consolidated` and the extractor entry point `extract_facts_batched`
are modelled from the spec, being absent from the source): a consolidation
run appends exactly the per-batch extracted facts to the semantic table —
each with confidence `0.7`, status `stable` and `derived_from` the ids of
its batch — and flips to `consolidated` exactly the episodes of all
processed batches. The multiset of ids over all `derived_from` lists counts
each batch once per fact the batch produced, so it equals the multiset of
marked ids exactly when every batch yields exactly one fact. -/
theorem C6_consolidation (gens : ℕ → Except Unit String)
    (relGen : Except Unit String) (embedBatch : List String → List (List ℚ))
    (labelsFn : List (List ℚ) → List ℤ) (minc maxc : ℕ) (now : ℤ)
    (hasClient : Bool) (s : Store) :
    (perform_consolidation gens relGen embedBatch labelsFn minc maxc now
        hasClient s).semantic =
      s.semantic ++ flatFacts gens embedBatch now hasClient 0
        (create_consolidation_batches labelsFn minc maxc
          (get_unconsolidated_episodes s "active")) ∧
    (perform_consolidation gens relGen embedBatch labelsFn minc maxc now
        hasClient s).episodic =
      s.episodic.map (consolidateIfIn
        ((create_consolidation_batches labelsFn minc maxc
          (get_unconsolidated_episodes s "active")).flatMap
          (fun b => b.map (fun e => e.id)))) ∧
    (∀ f ∈ flatFacts gens embedBatch now hasClient 0
        (create_consolidation_batches labelsFn minc maxc
          (get_unconsolidated_episodes s "active")),
      f.confidence = 7/10 ∧ f.status = "stable" ∧
        ∃ b ∈ create_consolidation_batches labelsFn minc maxc
          (get_unconsolidated_episodes s "active"),
          f.derived_from = b.map (fun e => e.id)) ∧
    ((∀ j, j < (create_consolidation_batches labelsFn minc maxc
        (get_unconsolidated_episodes s "active")).length →
        (factsOfClusters (gens j) embedBatch now hasClient
          [(create_consolidation_batches labelsFn minc maxc
            (get_unconsolidated_episodes s "active")).getD j []]).length
          = 1) →
      (flatFacts gens embedBatch now hasClient 0
        (create_consolidation_batches labelsFn minc maxc
          (get_unconsolidated_episodes s "active"))).flatMap
        (fun f => f.derived_from) =
      (create_consolidation_batches labelsFn minc maxc
        (get_unconsolidated_episodes s "active")).flatMap
        (fun b => b.map (fun e => e.id))) := by
  set episodes := get_unconsolidated_episodes s "active" with heps
  set batches := create_consolidation_batches labelsFn minc maxc episodes
    with hbat
  have hmain : (perform_consolidation gens relGen embedBatch labelsFn minc
      maxc now hasClient s).semantic =
        s.semantic ++ flatFacts gens embedBatch now hasClient 0 batches ∧
      (perform_consolidation gens relGen embedBatch labelsFn minc maxc now
        hasClient s).episodic =
        s.episodic.map (consolidateIfIn (batches.flatMap
          (fun b => b.map (fun e => e.id)))) := by
    by_cases hemp : episodes.isEmpty
    · have hb0 : batches = [] := by
        rw [hbat]
        unfold create_consolidation_batches
        rw [if_pos hemp]
      have hp0 : perform_consolidation gens relGen embedBatch labelsFn minc
          maxc now hasClient s = s := by
        simp only [perform_consolidation]
        rw [← heps, if_pos hemp]
      rw [hp0, hb0]
      constructor
      · simp [flatFacts]
      · rw [List.flatMap_nil, map_consolidateIfIn_nil]
    · have hp1 : perform_consolidation gens relGen embedBatch labelsFn minc
          maxc now hasClient s =
          analyze_relationship relGen now hasClient episodes
            (if (batches.flatMap (fun b => b.map (fun e => e.id))).isEmpty
              then { s with semantic :=
                (s.semantic ++
                  flatFacts gens embedBatch now hasClient 0 batches) }
              else mark_episodes_consolidated
                { s with semantic :=
                  (s.semantic ++
                    flatFacts gens embedBatch now hasClient 0 batches) }
                (batches.flatMap (fun b => b.map (fun e => e.id)))) := by
        simp only [perform_consolidation]
        rw [← heps, if_neg hemp, ← hbat,
          processBatches_spec gens embedBatch now hasClient batches 0 s]
      rw [hp1]
      have hA := analyze_relationship_frame relGen now hasClient episodes
        (if (batches.flatMap (fun b => b.map (fun e => e.id))).isEmpty
          then { s with semantic :=
            (s.semantic ++
              flatFacts gens embedBatch now hasClient 0 batches) }
          else mark_episodes_consolidated
            { s with semantic :=
              (s.semantic ++
                flatFacts gens embedBatch now hasClient 0 batches) }
            (batches.flatMap (fun b => b.map (fun e => e.id))))
      rw [hA.1, hA.2]
      by_cases hpe : (batches.flatMap (fun b => b.map (fun e => e.id))).isEmpty
      · rw [if_pos hpe]
        have : batches.flatMap (fun b => b.map (fun e => e.id)) = [] :=
          List.isEmpty_iff.mp hpe
        rw [this]
        exact ⟨rfl, by rw [map_consolidateIfIn_nil]⟩
      · rw [if_neg hpe]
        exact ⟨rfl, rfl⟩
  refine ⟨hmain.1, hmain.2, ?_, ?_⟩
  · intro f hf
    obtain ⟨b, hb, j, hj⟩ := flatFacts_mem gens embedBatch now hasClient
      batches 0 f hf
    have hm := factsOfClusters_mem _ _ _ _ _ _ hj
    refine ⟨hm.1, hm.2.1, b, hb, ?_⟩
    rw [hm.2.2]
    simp
  · intro hyp
    exact flatFacts_flat_derived gens embedBatch now hasClient batches 0
      (fun j hj => by simpa using hyp j hj)

/-- Store for the C6 run: one active, embedded episode with id `a`. -/
def storeC6 : Store := ⟨[epC5a], [], [], []⟩

/-- Generator stream answering two fact lines for every batch. -/
def gensC6 : ℕ → Except Unit String :=
  fun _ => Except.ok "the user likes green tea\nthe user dislikes coffee"

/-- Generator stream answering a single fact line for every batch. -/
def gensC6w : ℕ → Except Unit String :=
  fun _ => Except.ok "the user likes green tea"

/-- Batch embedder stub returning a unit vector per fact. -/
def embedC6 : List String → List (List ℚ) := fun l => l.map (fun _ => [1])

/-- C6 counterexample: one batch of one episode whose generator response
parses into TWO facts. Both facts carry `derived_from = [a]`, so the multiset
of episode ids over all `derived_from` lists is `{a, a}`, while the multiset
of ids marked consolidated is `{a}` — the claimed multiset equality fails
although no batch failed. -/
theorem C6_counterexample :
    ¬ ((((perform_consolidation gensC6 (Except.error ()) embedC6
        (fun _ => []) 3 50 0 true storeC6).semantic.flatMap
          (fun f => f.derived_from) : List String) : Multiset String) =
      ((((perform_consolidation gensC6 (Except.error ()) embedC6
        (fun _ => []) 3 50 0 true storeC6).episodic.filter
          (fun e => e.status == "consolidated")).map
          (fun e => e.id) : List String) : Multiset String)) := by
  have hsem : (perform_consolidation gensC6 (Except.error ()) embedC6
      (fun _ => []) 3 50 0 true storeC6).semantic.flatMap
        (fun f => f.derived_from) = ["a", "a"] := rfl
  have hmark : ((perform_consolidation gensC6 (Except.error ()) embedC6
      (fun _ => []) 3 50 0 true storeC6).episodic.filter
        (fun e => e.status == "consolidated")).map
        (fun e => e.id) = ["a"] := rfl
  intro h
  rw [hsem, hmark] at h
  have hcard := congrArg Multiset.card h
  simp at hcard

/-- C6 witness: the amended theorem applied to the one-batch run whose
generator yields exactly one fact — there the flattened `derived_from` ids
coincide with the consolidated ids. -/
theorem C6_consolidation_witness :
    (flatFacts gensC6w embedC6 0 true 0
      (create_consolidation_batches (fun _ => []) 3 50
        (get_unconsolidated_episodes storeC6 "active"))).flatMap
      (fun f => f.derived_from) =
    (create_consolidation_batches (fun _ => []) 3 50
      (get_unconsolidated_episodes storeC6 "active")).flatMap
      (fun b => b.map (fun e => e.id)) := by
  apply (C6_consolidation gensC6w (Except.error ()) embedC6 (fun _ => [])
    3 50 0 true storeC6).2.2.2
  intro j hj
  have hlen : (create_consolidation_batches (fun _ => []) 3 50
      (get_unconsolidated_episodes storeC6 "active")).length = 1 := rfl
  rw [hlen] at hj
  have hj0 : j = 0 := by omega
  subst hj0
  rfl

/-! ## `AsyncMemoryStream` (`async_memory_stream.py`) -/

/-- The `MemoryCache` dataclass. -/
structure MemoryCache where
  episodic_memories : List Episode
  semantic_facts : List SemFact
  context_embedding : List ℚ
  timestamp : ℤ
  turn_count : ℕ
deriving DecidableEq, Repr

/-- The claim-relevant state of `AsyncMemoryStream`: the rolling window of
recent turns and the optional cache. The task-management fields
(`_task`, `_running`) only start or stop the background worker. -/
structure StreamState where
  recent_turns : List String
  cache : Option MemoryCache
deriving DecidableEq, Repr

/-- Python `" ".join(turns)`. -/
def joinTurns : List String → String
  | [] => ""
  | [t] => t
  | t :: ts => t ++ " " ++ joinTurns ts

/-- `AsyncMemoryStream._refresh_cache()`: join the recent turns, return
unchanged when the context is blank, otherwise embed the context
(`embedFn` models `embedding_service.embed`), query the retriever
(`searchFn` models `retriever.search_memories` with its fixed arguments:
`search_type='both'`, `limit_per_type=5`,
`filters={'status': 'active', 'confidence__gt': 0.5}`) and replace the
cache with a fresh entry whose `turn_count` is `0`. Exceptions are caught
and leave the state unchanged; the model's embedder and retriever are
deterministic total functions. -/
def refresh_cache (embedFn : String → List ℚ)
    (searchFn : List ℚ → List Episode × List SemFact) (now : ℤ)
    (st : StreamState) : StreamState :=
  let context_text := joinTurns st.recent_turns
  if pyStrip context_text = "" then st
  else
    let context_embedding := embedFn context_text
    let results := searchFn context_embedding
    { st with cache :=
        (some ⟨results.1, results.2, context_embedding, now, 0⟩) }

/-- `MemoryCache.is_valid(current_context_embedding, max_turns)`: false past
the turn limit or on an empty embedding, else cosine similarity above 0.7
(`sklearn.cosine_similarity`, the same formula as `cosineSim`). -/
noncomputable def cache_is_valid (c : MemoryCache) (current : List ℚ)
    (max_turns : ℕ) : Bool :=
  if max_turns ≤ c.turn_count then false
  else if c.context_embedding.isEmpty || current.isEmpty then false
  else decide ((0.7 : ℝ) < cosineSim c.context_embedding current)

/-- `AsyncMemoryStream.get_cached_memories()`: `None` without a cache or on
a blank context; otherwise embed the current context, and on a valid cache
increment its `turn_count` and return its rows. -/
noncomputable def get_cached_memories (embedFn : String → List ℚ)
    (max_cache_turns : ℕ) (st : StreamState) :
    Option (List Episode × List SemFact) × StreamState :=
  match st.cache with
  | none => (none, st)
  | some c =>
    let current_context := joinTurns st.recent_turns
    if pyStrip current_context = "" then (none, st)
    else
      let current_embedding := embedFn current_context
      if cache_is_valid c current_embedding max_cache_turns then
        (some (c.episodic_memories, c.semantic_facts),
         { st with cache := some { c with turn_count := c.turn_count + 1 } })
      else (none, st)

/-! ## Theorems for claim C9 -/

/-- The observable projection of the cache: everything any reader consults —
`timestamp` is never read by any code path. -/
def cacheObs (st : StreamState) :
    Option (List Episode × List SemFact × List ℚ × ℕ) :=
  st.cache.map (fun c =>
    (c.episodic_memories, c.semantic_facts, c.context_embedding,
      c.turn_count))

/-- A non-blank context always rebuilds the cache: closed form of
`refresh_cache` on the else branch. -/
theorem refresh_cache_not_blank (embedFn : String → List ℚ)
    (searchFn : List ℚ → List Episode × List SemFact) (now : ℤ)
    (turns : List String) (c : Option MemoryCache)
    (h : ¬ pyStrip (joinTurns turns) = "") :
    refresh_cache embedFn searchFn now ⟨turns, c⟩ =
      ⟨turns, some ⟨(searchFn (embedFn (joinTurns turns))).1,
        (searchFn (embedFn (joinTurns turns))).2,
        embedFn (joinTurns turns), now, 0⟩⟩ := by
  show (if pyStrip (joinTurns turns) = "" then (⟨turns, c⟩ : StreamState)
      else ⟨turns, (some ⟨(searchFn (embedFn (joinTurns turns))).1,
        (searchFn (embedFn (joinTurns turns))).2,
        embedFn (joinTurns turns), now, 0⟩)⟩) =
      ⟨turns, some ⟨(searchFn (embedFn (joinTurns turns))).1,
        (searchFn (embedFn (joinTurns turns))).2,
        embedFn (joinTurns turns), now, 0⟩⟩
  rw [if_neg h]

/-- States agreeing on turns and observable cache are indistinguishable to
`get_cached_memories`: same reply, and the post-states again agree. -/
theorem get_cached_obs_congr (embedFn : String → List ℚ)
    (max_cache_turns : ℕ) (st st2 : StreamState)
    (hturns : st.recent_turns = st2.recent_turns)
    (hobs : cacheObs st = cacheObs st2) :
    (get_cached_memories embedFn max_cache_turns st).1 =
        (get_cached_memories embedFn max_cache_turns st2).1 ∧
      (get_cached_memories embedFn max_cache_turns st).2.recent_turns =
        (get_cached_memories embedFn max_cache_turns st2).2.recent_turns ∧
      cacheObs (get_cached_memories embedFn max_cache_turns st).2 =
        cacheObs (get_cached_memories embedFn max_cache_turns st2).2 := by
  rcases hc1 : st.cache with _ | c1
  · rcases hc2 : st2.cache with _ | c2
    · simp only [get_cached_memories, hc1, hc2]
      refine ⟨?_, ?_, ?_⟩
      · trivial
      · exact hturns
      · exact hobs
    · exfalso
      unfold cacheObs at hobs
      rw [hc1, hc2] at hobs
      simp at hobs
  · rcases hc2 : st2.cache with _ | c2
    · exfalso
      unfold cacheObs at hobs
      rw [hc1, hc2] at hobs
      simp at hobs
    · have hf : c1.episodic_memories = c2.episodic_memories ∧
          c1.semantic_facts = c2.semantic_facts ∧
          c1.context_embedding = c2.context_embedding ∧
          c1.turn_count = c2.turn_count := by
        unfold cacheObs at hobs
        rw [hc1, hc2] at hobs
        simpa using hobs
      obtain ⟨hf1, hf2, hf3, hf4⟩ := hf
      simp only [get_cached_memories, hc1, hc2]
      rw [hturns]
      by_cases hctx : pyStrip (joinTurns st2.recent_turns) = ""
      · rw [if_pos hctx, if_pos hctx]
        exact ⟨rfl, hturns, hobs⟩
      · rw [if_neg hctx, if_neg hctx]
        rw [show cache_is_valid c1 (embedFn (joinTurns st2.recent_turns))
            max_cache_turns =
            cache_is_valid c2 (embedFn (joinTurns st2.recent_turns))
              max_cache_turns by
          unfold cache_is_valid
          rw [hf3, hf4]]
        by_cases hv : cache_is_valid c2
            (embedFn (joinTurns st2.recent_turns)) max_cache_turns
        · rw [if_pos hv, if_pos hv]
          refine ⟨by rw [hf1, hf2], rfl, ?_⟩
          unfold cacheObs
          simp [hf1, hf2, hf3, hf4]
        · rw [if_neg hv, if_neg hv]
          exact ⟨rfl, hturns, hobs⟩

/-- C9 (amended): two back-to-back `_refresh_cache` calls with no
intervening turn are observationally equivalent to one — the states agree on
the turn window and on every cache field any reader consults (all but the
unread `timestamp`), so `get_cached_memories` replies identically. But
`_refresh_cache` is NOT a no-op on an unchanged context: it stores no
context text, never compares one, and unconditionally rebuilds the cache,
resetting `turn_count` to 0. -/
theorem C9_refresh_idempotent (embedFn : String → List ℚ)
    (searchFn : List ℚ → List Episode × List SemFact) (t1 t2 : ℤ)
    (max_cache_turns : ℕ) (st : StreamState) :
    (refresh_cache embedFn searchFn t2
        (refresh_cache embedFn searchFn t1 st)).recent_turns =
      (refresh_cache embedFn searchFn t1 st).recent_turns ∧
    cacheObs (refresh_cache embedFn searchFn t2
        (refresh_cache embedFn searchFn t1 st)) =
      cacheObs (refresh_cache embedFn searchFn t1 st) ∧
    (get_cached_memories embedFn max_cache_turns
        (refresh_cache embedFn searchFn t2
          (refresh_cache embedFn searchFn t1 st))).1 =
      (get_cached_memories embedFn max_cache_turns
        (refresh_cache embedFn searchFn t1 st)).1 := by
  have hkey : (refresh_cache embedFn searchFn t2
      (refresh_cache embedFn searchFn t1 st)).recent_turns =
        (refresh_cache embedFn searchFn t1 st).recent_turns ∧
      cacheObs (refresh_cache embedFn searchFn t2
        (refresh_cache embedFn searchFn t1 st)) =
        cacheObs (refresh_cache embedFn searchFn t1 st) := by
    by_cases h : pyStrip (joinTurns st.recent_turns) = ""
    · have hid : refresh_cache embedFn searchFn t1 st = st := by
        unfold refresh_cache
        rw [if_pos h]
      have hid2 : refresh_cache embedFn searchFn t2 st = st := by
        unfold refresh_cache
        rw [if_pos h]
      rw [hid, hid2]
      exact ⟨rfl, rfl⟩
    · have hform : ∀ t : ℤ, refresh_cache embedFn searchFn t st =
          ⟨st.recent_turns,
            some ⟨(searchFn (embedFn (joinTurns st.recent_turns))).1,
              (searchFn (embedFn (joinTurns st.recent_turns))).2,
              embedFn (joinTurns st.recent_turns), t, 0⟩⟩ := by
        intro t
        exact refresh_cache_not_blank embedFn searchFn t
          st.recent_turns st.cache h
      have hsame : (refresh_cache embedFn searchFn t1 st).recent_turns =
          st.recent_turns := by
        rw [hform t1]
      have hform2 : refresh_cache embedFn searchFn t2
          (refresh_cache embedFn searchFn t1 st) =
          ⟨st.recent_turns,
            some ⟨(searchFn (embedFn (joinTurns st.recent_turns))).1,
              (searchFn (embedFn (joinTurns st.recent_turns))).2,
              embedFn (joinTurns st.recent_turns), t2, 0⟩⟩ := by
        rw [hform t1]
        exact refresh_cache_not_blank embedFn searchFn t2
          st.recent_turns _ h
      rw [hform2, hform t1]
      exact ⟨rfl, rfl⟩
  refine ⟨hkey.1, hkey.2, ?_⟩
  exact (get_cached_obs_congr embedFn max_cache_turns _ _ hkey.1 hkey.2).1

/-- The C9 state: one recorded turn, and a cache built from that same
context (its stored embedding is the embedding of the joined turns) that has
served four hits. -/
def stC9 : StreamState :=
  ⟨["User: hi\nMiyori: yo"], some ⟨[], [], [1], 5, 4⟩⟩

/-- C9 counterexample: although the cache of `stC9` was built from exactly
the current context (its stored embedding equals the fresh embedding of the
joined turns) and the refresh timestamp equals the stored one, `refresh`
does not return without modifying the cache: it rebuilds it, resetting
`turn_count` from 4 to 0. The no-op-on-equal-context step of the claim does
not exist in the code. -/
theorem C9_counterexample :
    stC9.cache.map (fun c => c.context_embedding) =
      some ((fun _ => ([1] : List ℚ)) (joinTurns stC9.recent_turns)) ∧
    (refresh_cache (fun _ => [1]) (fun _ => ([], [])) 5 stC9).cache.map
      (fun c => c.turn_count) = some 0 ∧
    stC9.cache.map (fun c => c.turn_count) = some 4 ∧
    refresh_cache (fun _ => [1]) (fun _ => ([], [])) 5 stC9 ≠ stC9 := by
  have hres : refresh_cache (fun _ => [1]) (fun _ => ([], [])) 5 stC9 =
      ⟨stC9.recent_turns, some ⟨[], [], [1], 5, 0⟩⟩ := rfl
  refine ⟨rfl, by rw [hres]; rfl, rfl, ?_⟩
  intro h
  rw [hres] at h
  simp [stC9] at h

/-! ## Context builder (`context.py`) -/

/-- `count_tokens_approx(text)`: `len(text) // 4`, a FLOOR division. -/
def count_tokens_approx (text : String) : ℕ := text.length / 4

/-- Modelled from the spec: the token measure the spec states, approximate
tokens as the CEILING of chars over 4, for comparison with the code's
`count_tokens_approx`. -/
def ceilTokens (text : String) : ℕ := (text.length + 3) / 4

/-- Python `"\n".join(items)`. -/
def joinNL : List String → String
  | [] => ""
  | [t] => t
  | t :: ts => t ++ "\n" ++ joinNL ts

/-- Python `"".join(parts)`. -/
def concatParts : List String → String
  | [] => ""
  | p :: ps => p ++ concatParts ps

/-- One episodic item as `format_section` reads it: its `timestamp` and
`summary` fields. -/
structure EpItem where
  timestamp : String
  summary : String

/-- `format_section` for the label `TOOL_RESULTS` and a string content:
falsy (empty) content gives the empty string, otherwise the header line,
the raw string, and a blank line. -/
def format_section_tool (content : String) : String :=
  if content = "" then ""
  else "--- TOOL_RESULTS ---" ++ "\n" ++ content ++ "\n\n"

/-- `format_section` for the label `EPISODIC`: one line per item, either
`[date] summary` when `datetime.fromisoformat` parses the timestamp
(`fmtTs` models the fromisoformat-plus-strftime pair, returning `none` on
the except branch) or the bare summary. -/
def format_section_episodic (fmtTs : String → Option String)
    (content : List EpItem) : String :=
  if content.isEmpty then ""
  else
    "--- EPISODIC ---" ++ "\n" ++
      joinNL (content.map (fun item =>
        match fmtTs item.timestamp with
        | some d => "[" ++ d ++ "] " ++ item.summary
        | none => item.summary)) ++ "\n\n"

/-- `format_section` for the label `FACTS`: one dash-prefixed line per
fact. -/
def format_section_facts (content : List String) : String :=
  if content.isEmpty then ""
  else
    "--- FACTS ---" ++ "\n" ++
      joinNL (content.map (fun f => "- " ++ f)) ++ "\n\n"

/-- The loop of `truncate_to_budget`: keep whole lines while the running
total of per-line costs `count_tokens_approx(item + newline)` stays within
`max_tokens`; break at the first line that does not fit. -/
def truncLoop (max_tokens : ℕ) : List String → ℕ → List String
  | [], _ => []
  | item :: rest, current =>
    let item_tokens := count_tokens_approx (item ++ "\n")
    if current + item_tokens ≤ max_tokens then
      item :: truncLoop max_tokens rest (current + item_tokens)
    else []

/-- `truncate_to_budget(text, max_tokens)`: split on newlines, keep the
greedy prefix of lines whose per-line costs fit, rejoin with newlines. -/
def truncate_to_budget (text : String) (max_tokens : ℕ) : String :=
  joinNL (truncLoop max_tokens (splitLines text) 0)

/-- Step 1 of `build_context`: the privileged tool-results section.
Returns the parts list and `tokens_used` it leaves behind. Python treats
`None` and the empty string alike (`if tool_results:`), so the absent case
is the empty string. -/
def toolStep (token_budget : ℕ) (tool_results : String) :
    List String × ℕ :=
  if tool_results ≠ "" then
    let section_text := format_section_tool tool_results
    let section_tokens := count_tokens_approx section_text
    let tool_budget := min 400 (token_budget / 3)
    if section_tokens ≤ tool_budget then ([section_text], section_tokens)
    else
      let truncated := truncate_to_budget section_text tool_budget
      if pyStrip truncated ≠ "" then
        ([truncated ++ "\n\n"],
          count_tokens_approx (truncated ++ "\n\n"))
      else ([], 0)
  else ([], 0)

/-- One iteration of the sections loop of `build_context`. Both entries of
`sections` carry `required = False` (so that branch is dead) and
`target_tokens` is never read in the body. `stopped` records that an
earlier iteration executed `break`; `contentEmpty` is Python's
`if not content: continue` test. -/
def processSection (token_budget : ℕ) (contentEmpty : Bool)
    (section_text : String) (parts : List String) (used : ℕ)
    (stopped : Bool) : List String × ℕ × Bool :=
  if stopped then (parts, used, true)
  else if contentEmpty then (parts, used, false)
  else
    let section_tokens := count_tokens_approx section_text
    if token_budget ≤ used then (parts, used, true)
    else
      let available := token_budget - used
      if section_tokens ≤ available then
        (parts ++ [section_text], used + section_tokens, false)
      else
        if 50 < available then
          let truncated := truncate_to_budget section_text available
          if pyStrip truncated ≠ "" then
            (parts ++ [truncated ++ "\n\n"],
              used + count_tokens_approx (truncated ++ "\n\n"), true)
          else (parts, used, true)
        else (parts, used, true)

/-- `ContextBuilder.build_context(user_message, tool_results)`: the
episodic and semantic item lists stand for whatever the cache lookup or
the synchronous fallback of steps 2 and 3 produced; the claim quantifies
over them directly. The dead `remaining_budget` binding of the source is
dropped. -/
def build_context (token_budget : ℕ) (fmtTs : String → Option String)
    (tool_results : String) (episodic_memories : List EpItem)
    (semantic_facts : List String) : String :=
  let step1 := toolStep token_budget tool_results
  let st1 := processSection token_budget episodic_memories.isEmpty
    (format_section_episodic fmtTs episodic_memories) step1.1 step1.2 false
  let st2 := processSection token_budget semantic_facts.isEmpty
    (format_section_facts semantic_facts) st1.1 st1.2.1 st1.2.2
  pyStrip (concatParts st2.1)

/-- The counterexample tool results: thirty two-character lines. -/
def toolC2 : String := joinNL (List.replicate 30 "ab")

/-! ## Theorems for claim C2 -/

/-- Concatenation length is the sum of the parts. -/
theorem concatParts_length (ps : List String) :
    (concatParts ps).length = (ps.map String.length).sum := by
  induction ps with
  | nil => rfl
  | cons p ps ih => simp [concatParts, String.length_append, ih]

/-- Dropping a prefix never grows a list. -/
theorem dropWhile_length_le {α : Type} (p : α → Bool) (l : List α) :
    (l.dropWhile p).length ≤ l.length := by
  induction l with
  | nil => simp
  | cons c t ih =>
    rw [List.dropWhile_cons]
    by_cases h : p c = true
    · rw [if_pos h]
      exact le_trans ih (Nat.le_succ _)
    · rw [if_neg h]

/-- Stripping never grows a string. -/
theorem pyStrip_length_le (s : String) : (pyStrip s).length ≤ s.length := by
  show (stripCharsWith isPySpace s.data).length ≤ s.data.length
  unfold stripCharsWith
  calc (((s.data.dropWhile isPySpace).reverse.dropWhile
        isPySpace).reverse).length
      = ((s.data.dropWhile isPySpace).reverse.dropWhile
          isPySpace).length := by rw [List.length_reverse]
    _ ≤ (s.data.dropWhile isPySpace).reverse.length :=
        dropWhile_length_le _ _
    _ = (s.data.dropWhile isPySpace).length := by rw [List.length_reverse]
    _ ≤ s.data.length := dropWhile_length_le _ _

/-- A string is at most three characters longer than four times its floor
token count. -/
theorem length_le_four_tokens (s : String) :
    s.length ≤ 4 * count_tokens_approx s + 3 := by
  unfold count_tokens_approx
  omega

/-- The tool step without truncation: when the formatted tool section fits
its privileged budget, the tokens used stay within the total budget, the
text emitted is bounded by the tokens it was charged, and at most one part
is emitted. -/
theorem toolStep_no_trunc (b : ℕ) (tr : String)
    (htool : tr ≠ "" →
      count_tokens_approx (format_section_tool tr) ≤ min 400 (b / 3)) :
    (toolStep b tr).2 ≤ b ∧
    (concatParts (toolStep b tr).1).length ≤
      4 * (toolStep b tr).2 + 3 * (toolStep b tr).1.length ∧
    (toolStep b tr).1.length ≤ 1 := by
  by_cases h : tr = ""
  · have h1 : toolStep b tr = ([], 0) := by
      unfold toolStep
      rw [if_neg (fun hn => hn h)]
    rw [h1]
    refine ⟨Nat.zero_le _, ?_, by simp⟩
    rw [concatParts_length]
    simp
  · have h1 : toolStep b tr = ([format_section_tool tr],
        count_tokens_approx (format_section_tool tr)) := by
      unfold toolStep
      rw [if_pos h]
      show (if count_tokens_approx (format_section_tool tr) ≤
            min 400 (b / 3) then
          ([format_section_tool tr],
            count_tokens_approx (format_section_tool tr))
        else
          if pyStrip (truncate_to_budget (format_section_tool tr)
              (min 400 (b / 3))) ≠ "" then
            ([truncate_to_budget (format_section_tool tr)
                (min 400 (b / 3)) ++ "\n\n"],
              count_tokens_approx
                (truncate_to_budget (format_section_tool tr)
                  (min 400 (b / 3)) ++ "\n\n"))
          else ([], 0)) =
        ([format_section_tool tr],
          count_tokens_approx (format_section_tool tr))
      rw [if_pos (htool h)]
    rw [h1]
    have h2 := htool h
    have h3 : b / 3 ≤ b := Nat.div_le_self b 3
    have h4 := length_le_four_tokens (format_section_tool tr)
    have h5 : (concatParts [format_section_tool tr]).length =
        (format_section_tool tr).length := by
      rw [concatParts_length]
      simp
    refine ⟨by omega, ?_, by simp⟩
    show (concatParts [format_section_tool tr]).length ≤
      4 * count_tokens_approx (format_section_tool tr) +
        3 * ([format_section_tool tr]).length
    rw [h5]
    simp only [List.length_singleton]
    omega

/-- One loop iteration without truncation: when the section fits the
remaining budget, the tokens used stay within the total budget, the
emitted text stays bounded by the tokens charged, and at most one part is
added. -/
theorem processSection_no_trunc (b : ℕ) (ce : Bool) (text : String)
    (parts : List String) (used : ℕ) (s : Bool)
    (hused : used ≤ b)
    (hlen : (concatParts parts).length ≤ 4 * used + 3 * parts.length)
    (hfits : count_tokens_approx text ≤ b - used) :
    (processSection b ce text parts used s).2.1 ≤ b ∧
    (concatParts (processSection b ce text parts used s).1).length ≤
      4 * (processSection b ce text parts used s).2.1 +
        3 * (processSection b ce text parts used s).1.length ∧
    (processSection b ce text parts used s).1.length ≤ parts.length + 1 := by
  cases s with
  | true =>
    have h1 : processSection b ce text parts used true =
        (parts, used, true) := rfl
    rw [h1]
    exact ⟨hused, hlen, Nat.le_succ _⟩
  | false =>
    cases ce with
    | true =>
      have h1 : processSection b true text parts used false =
          (parts, used, false) := rfl
      rw [h1]
      exact ⟨hused, hlen, Nat.le_succ _⟩
    | false =>
      have h1 : processSection b false text parts used false =
          (if b ≤ used then (parts, used, true)
          else
            if count_tokens_approx text ≤ b - used then
              (parts ++ [text], used + count_tokens_approx text, false)
            else
              if 50 < b - used then
                (if pyStrip (truncate_to_budget text (b - used)) ≠ "" then
                  (parts ++ [truncate_to_budget text (b - used) ++ "\n\n"],
                    used + count_tokens_approx
                      (truncate_to_budget text (b - used) ++ "\n\n"), true)
                else (parts, used, true))
              else (parts, used, true)) := rfl
      rw [h1]
      by_cases hb : b ≤ used
      · rw [if_pos hb]
        exact ⟨hused, hlen, Nat.le_succ _⟩
      · rw [if_neg hb, if_pos hfits]
        have hc1 : (parts ++ [text]).length = parts.length + 1 := by simp
        have hc2 : (concatParts (parts ++ [text])).length =
            (concatParts parts).length + text.length := by
          rw [concatParts_length, concatParts_length]
          simp
        have hc3 := length_le_four_tokens text
        refine ⟨?_, ?_, ?_⟩
        · show used + count_tokens_approx text ≤ b
          omega
        · show (concatParts (parts ++ [text])).length ≤
            4 * (used + count_tokens_approx text) +
              3 * (parts ++ [text]).length
          rw [hc2, hc1]
          omega
        · show (parts ++ [text]).length ≤ parts.length + 1
          rw [hc1]

/-- C2 (amended): `build_context` keeps the SPEC token measure
(ceiling of chars over 4) within `token_budget + 3` PROVIDED no section is
truncated: the tool section fits its privileged budget and each loop
section fits the budget remaining when it is considered. The slack of 3
is the floor-versus-ceiling rounding of the three parts. Without the
no-truncation hypotheses the bound fails outright: `truncate_to_budget`
charges each kept line `len // 4` tokens, so lines shorter than four
characters cost nothing and the emitted text can exceed any budget. -/
theorem C2_context_budget (b : ℕ) (fmtTs : String → Option String)
    (tr : String) (epis : List EpItem) (facts : List String)
    (htool : tr ≠ "" →
      count_tokens_approx (format_section_tool tr) ≤ min 400 (b / 3))
    (hepi : count_tokens_approx (format_section_episodic fmtTs epis) ≤
      b - (toolStep b tr).2)
    (hfacts : count_tokens_approx (format_section_facts facts) ≤
      b - (processSection b epis.isEmpty
        (format_section_episodic fmtTs epis) (toolStep b tr).1
        (toolStep b tr).2 false).2.1) :
    ceilTokens (build_context b fmtTs tr epis facts) ≤ b + 3 := by
  obtain ⟨ht1, ht2, ht3⟩ := toolStep_no_trunc b tr htool
  obtain ⟨he1, he2, he3⟩ := processSection_no_trunc b epis.isEmpty
    (format_section_episodic fmtTs epis) (toolStep b tr).1 (toolStep b tr).2
    false ht1 ht2 hepi
  obtain ⟨hf1, hf2, hf3⟩ := processSection_no_trunc b facts.isEmpty
    (format_section_facts facts)
    (processSection b epis.isEmpty (format_section_episodic fmtTs epis)
      (toolStep b tr).1 (toolStep b tr).2 false).1
    (processSection b epis.isEmpty (format_section_episodic fmtTs epis)
      (toolStep b tr).1 (toolStep b tr).2 false).2.1
    (processSection b epis.isEmpty (format_section_episodic fmtTs epis)
      (toolStep b tr).1 (toolStep b tr).2 false).2.2
    he1 he2 hfacts
  have hb : build_context b fmtTs tr epis facts =
      pyStrip (concatParts (processSection b facts.isEmpty
        (format_section_facts facts)
        (processSection b epis.isEmpty (format_section_episodic fmtTs epis)
          (toolStep b tr).1 (toolStep b tr).2 false).1
        (processSection b epis.isEmpty (format_section_episodic fmtTs epis)
          (toolStep b tr).1 (toolStep b tr).2 false).2.1
        (processSection b epis.isEmpty (format_section_episodic fmtTs epis)
          (toolStep b tr).1 (toolStep b tr).2 false).2.2).1) := rfl
  rw [hb]
  unfold ceilTokens
  have hps := pyStrip_length_le (concatParts (processSection b facts.isEmpty
    (format_section_facts facts)
    (processSection b epis.isEmpty (format_section_episodic fmtTs epis)
      (toolStep b tr).1 (toolStep b tr).2 false).1
    (processSection b epis.isEmpty (format_section_episodic fmtTs epis)
      (toolStep b tr).1 (toolStep b tr).2 false).2.1
    (processSection b epis.isEmpty (format_section_episodic fmtTs epis)
      (toolStep b tr).1 (toolStep b tr).2 false).2.2).1)
  omega

/-- C2 witness: the default budget 1500, a short tool result, no episodic
items and one fact satisfy the no-truncation hypotheses, and the built
context stays within 1503 ceiling tokens. -/
theorem C2_context_budget_witness :
    ceilTokens (build_context 1500 (fun _ => none) "tool data here" []
      ["the sky is blue"]) ≤ 1503 :=
  C2_context_budget 1500 (fun _ => none) "tool data here" []
    ["the sky is blue"] (fun _ => by decide) (by decide) (by decide)

/-- C2 counterexample: with budget 15 and thirty two-character tool-result
lines, the tool section (28 floor tokens) exceeds its privileged budget of
5, but `truncate_to_budget` keeps every line - the header costs 5 and each
following line costs `3 // 4 = 0` - so the final context measures 27 floor
tokens and 28 ceiling tokens, far beyond the budget of 15: the cap of the
claim does not hold. -/
theorem C2_counterexample :
    count_tokens_approx (build_context 15 (fun _ => none) toolC2 [] [])
        = 27 ∧
    ceilTokens (build_context 15 (fun _ => none) toolC2 [] []) = 28 ∧
    (15 : ℕ) < 27 := by
  refine ⟨by decide, by decide, by norm_num⟩
